import Mathlib

/-!
# The daemon file enumerator of gvfs (client/gdaemonfileenumerator.c)

A shallow embedding of the delivery engine of `GDaemonFileEnumerator`: the
buffered list of `GFileInfo` entries, the two D-Bus push handlers
(`handle_got_info`, `handle_done`), the blocking pull (`next_file`), the
batched pull (`next_files_async` / `next_files_finish`) and the completion
routine `trigger_async_done`.

Every handler body runs with the `infos` lock held, so a handler is one atomic
transition of the state; the one statement outside the lock, the first of
`async_cancelled`, is a transition of its own where a cancellation on another
thread is followed (`Threads`, `step_threads`).  What GLib keeps on behalf of
the enumerator (armed timeout sources, connected `cancelled` handlers,
cancelled tokens, results whose completion was scheduled in idle) is carried
next to the fields of the C struct.  `none` as the outcome of a transition
means that the C code does not return normally there (a NULL dereference, a
second lock of `infos`, or two threads that wait for each other).  The class
methods are reached by the consumer through the `GFileEnumerator` base class,
whose bookkeeping of the outstanding request is modelled in `GFileEnumerator`.
-/

namespace Gvfs

/-! ## Data model -/

/-- The value of a metadata key: `META_KEY_TYPE_STRING` or a string list. -/
inductive MetaValue where
  | string (s : String)
  | stringv (l : List String)
deriving DecidableEq

/-- A `GFileInfo`: the file name (the attribute `standard::name`, `none` when it
is not set) and the other attributes that have been set. -/
structure GFileInfo where
  name : Option String
  attributes : List (String × MetaValue)
deriving DecidableEq

/-- The `G_IO_ERROR` codes met here: the two that the enumerator reports, and
the one with which the base class answers a call made while an operation is
outstanding. -/
inductive GIOErrorCode where
  | FAILED
  | CANCELLED
  | PENDING
deriving DecidableEq

/-- A `GError` in the `G_IO_ERROR` domain. -/
structure GError where
  code : GIOErrorCode
  message : String
deriving DecidableEq

/-- Modelled from the spec: the attribute matcher (external collaborator),
a set of requested-field patterns queried via `matches(name)` and
`coversNamespace(ns)`. -/
structure GFileAttributeMatcher where
  all : Bool
  namespaces : List String
  attributes : List String
deriving DecidableEq

/-- Modelled from the spec: `matches(name)` of the attribute matcher. -/
def g_file_attribute_matcher_matches (m : GFileAttributeMatcher) (attr : String) : Bool :=
  m.all || m.attributes.contains attr ||
    m.namespaces.any (fun ns => (ns ++ "::").data.isPrefixOf attr.data)

/-- Modelled from the spec: the test made at creation, whether the requested
fields intersect the given namespace (`enumerate_namespace` answers for the
whole namespace, `enumerate_next` for single attributes inside it). -/
def g_file_attribute_matcher_wants_namespace (m : GFileAttributeMatcher) (ns : String) : Bool :=
  m.all || m.namespaces.contains ns ||
    m.attributes.any (fun a => (ns ++ "::").data.isPrefixOf a.data)

/-- Modelled from the spec: the local metadata store, as the keys stored for
each path (`enumerateKeys(scope, path, visit(key, kind, value))`). -/
abbrev MetaTree := List (String × List (String × MetaValue))

/-- Modelled from the spec: the keys the metadata store holds for a path, in
the order in which they are visited. -/
def meta_tree_enumerate_keys (tree : MetaTree) (path : String) : List (String × MetaValue) :=
  match tree.lookup path with
  | some keys => keys
  | none => []

/-- The `GSimpleAsyncResult` of one `next_files_async` call: its identity, the
cancellable stored under "file-enumerator-cancellable", the error and the
`op_res` list (NULL is the empty list). -/
structure GSimpleAsyncResult where
  id : Nat
  cancellable : Option Nat
  error : Option GError
  op_res : List GFileInfo
deriving DecidableEq

/-- The fields of `struct _GDaemonFileEnumerator`.  `sync_connection` is
`none` for NULL; `container_path` is the path of the container file.  The
private main loop, its context and mutex are represented by the list of
messages dispatched during a wait (see `g_daemon_file_enumerator_next_file`). -/
structure GDaemonFileEnumerator where
  id : Int
  sync_connection : Option Nat
  infos : List GFileInfo
  done : Bool
  async_requested_files : Int
  cancelled_tag : Nat
  timeout_tag : Nat
  async_res : Option GSimpleAsyncResult
  next_files_context : Bool
  container_path : String
  matcher : GFileAttributeMatcher
  metadata_tree : Option MetaTree
deriving DecidableEq

/-- The enumerator together with what GLib holds for it: the armed timeout
sources, the connected `cancelled` handlers (cancellable, handler id), the
cancellables that have been cancelled, the counter from which source ids,
handler ids and result identities are drawn, and the results whose completion
has been scheduled by `g_simple_async_result_complete_in_idle`, in order. -/
structure World extends GDaemonFileEnumerator where
  sources : List Nat
  handlers : List (Nat × Nat)
  cancelled : List Nat
  next_tag : Nat
  idle : List GSimpleAsyncResult
deriving DecidableEq

/-! ## Creation -/

/-- The function `g_daemon_file_enumerator_new`: `g_object_new` clears every field,
`init` draws the id from `path_counter`, a private context is made for a
synchronous enumerator, and the metadata tree is looked up only when the
requested attributes reach into the "metadata" namespace. -/
def g_daemon_file_enumerator_new (path_counter : Int) (file_path : String)
    (attributes : GFileAttributeMatcher) (sync : Bool) (tree : Option MetaTree) :
    GDaemonFileEnumerator :=
  { id := path_counter
    sync_connection := none
    infos := []
    done := false
    async_requested_files := 0
    cancelled_tag := 0
    timeout_tag := 0
    async_res := none
    next_files_context := sync
    container_path := file_path
    matcher := attributes
    metadata_tree :=
      if g_file_attribute_matcher_wants_namespace attributes "metadata" then tree else none }

/-- The function `g_daemon_file_enumerator_set_sync_connection`. -/
def g_daemon_file_enumerator_set_sync_connection (enumerator : GDaemonFileEnumerator)
    (connection : Nat) : GDaemonFileEnumerator :=
  { enumerator with sync_connection := some connection }

/-- A newly created enumerator in a main loop that holds nothing for it yet. -/
def World.fresh (daemon : GDaemonFileEnumerator) : World :=
  { toGDaemonFileEnumerator := daemon
    sources := []
    handlers := []
    cancelled := []
    next_tag := 1
    idle := [] }

/-! ## Metadata -/

/-- The call `g_file_info_set_attribute_string` / `_stringv` under an attribute
mask: the attribute is stored only when the mask matches it, replacing an
earlier value of the same attribute. -/
def g_file_info_set_attribute (info : GFileInfo) (mask : GFileAttributeMatcher)
    (attr : String) (value : MetaValue) : GFileInfo :=
  if g_file_attribute_matcher_matches mask attr then
    { info with attributes := (info.attributes.filter (fun kv => kv.1 ≠ attr)) ++ [(attr, value)] }
  else info

/-- The function `enumerate_keys_callback`: the key is stored as
`metadata::key`, as a string or a string list according to its type. -/
def enumerate_keys_callback (key : String) (value : MetaValue) (info : GFileInfo)
    (mask : GFileAttributeMatcher) : GFileInfo :=
  let attr := "metadata::" ++ key
  g_file_info_set_attribute info mask attr value

/-- The directory separator of `g_build_filename`. -/
def dir_separator : Char := Char.ofNat 47

/-- The state of the loop of `g_build_filename`: the string built so far, and
the flags and pointers of the loop (`last_trailing` as the string it points
to, empty for NULL). -/
structure BuildFilename where
  result : List Char
  is_first : Bool
  have_leading : Bool
  single_element : Option (List Char)
  last_trailing : List Char

/-- One round of the loop of `g_build_filename`: an empty element is ignored;
the leading separators of the first element are kept, those at the boundary
between two elements are replaced by one separator, and the trailing ones of
the element are remembered. -/
def g_build_filename_element (st : BuildFilename) (element : List Char) : BuildFilename :=
  if element = [] then st
  else
    let leading := element.takeWhile (fun c => c == dir_separator)
    let start := element.dropWhile (fun c => c == dir_separator)
    let core := (start.reverse.dropWhile (fun c => c == dir_separator)).reverse
    let last_trailing := if start = [] then element else start.drop core.length
    let st1 : BuildFilename :=
      if st.have_leading then { st with single_element := none }
      else { st with
        single_element := if start = [] then some element else st.single_element
        result := st.result ++ leading
        have_leading := true }
    let st2 : BuildFilename := { st1 with last_trailing := last_trailing }
    if core = [] then st2
    else { st2 with
      result := st2.result ++ (if st2.is_first then [] else [dir_separator]) ++ core
      is_first := false }

/-- The call `g_build_filename (first, ..., NULL)`: the elements joined by single
separators; the only non-empty element, when it is made of separators, is
returned as it is. -/
def g_build_filename (elements : List String) : String :=
  let st := (elements.map (fun e => e.data)).foldl g_build_filename_element
    { result := [], is_first := true, have_leading := false, single_element := none,
      last_trailing := [] }
  match st.single_element with
  | some element => String.mk element
  | none => String.mk (st.result ++ st.last_trailing)

/-- The call `g_file_info_set_attribute_mask`: the attributes that the mask does
not match are removed from the info, the name among them. -/
def g_file_info_set_attribute_mask (info : GFileInfo) (mask : GFileAttributeMatcher) :
    GFileInfo :=
  { name := if g_file_attribute_matcher_matches mask "standard::name" then info.name else none
    attributes := info.attributes.filter (fun kv => g_file_attribute_matcher_matches mask kv.1) }

/-- The function `add_metadata`: nothing without a metadata tree; otherwise the path
is built from the path of the container and the name of the info (a NULL name
ends the argument list), the matcher is set as mask, which removes the
attributes it does not match, and every key stored for the path is added
under that mask. -/
def add_metadata (daemon : GDaemonFileEnumerator) (info : GFileInfo) : GFileInfo :=
  match daemon.metadata_tree with
  | none => info
  | some tree =>
    let path := g_build_filename (daemon.container_path :: info.name.toList)
    (meta_tree_enumerate_keys tree path).foldl
      (fun i kv => enumerate_keys_callback kv.1 kv.2 i daemon.matcher)
      (g_file_info_set_attribute_mask info daemon.matcher)

/-- The function `add_metadata` as a function of the three fields it reads. -/
def add_metadata_with (tree : Option MetaTree) (container_path : String)
    (matcher : GFileAttributeMatcher) (info : GFileInfo) : GFileInfo :=
  match tree with
  | none => info
  | some tree =>
    (meta_tree_enumerate_keys tree (g_build_filename (container_path :: info.name.toList))).foldl
      (fun i kv => enumerate_keys_callback kv.1 kv.2 i matcher)
      (g_file_info_set_attribute_mask info matcher)

/-! ## Completion of an asynchronous request -/

/-- The function `trigger_async_done`, called with the infos lock held.

* A connected `cancelled` handler is disconnected from the cancellable of the
  result (both disconnect calls remove the handler).
* With `ok`, the list is split at `g_list_nth (l, async_requested_files)`: the
  count is converted to `guint`, so a negative count lies beyond the end of the
  list; for the count 0 the split node is the head, whose `prev` is NULL, and
  `rest->prev->next` faults.  The head part gets its metadata and becomes the
  `op_res` of the result.
* The result is completed in idle, the timeout source removed, the request
  fields cleared. -/
def trigger_async_done (w : World) (ok : Bool) : Option World :=
  let handlers :=
    if w.cancelled_tag ≠ 0 then
      match w.async_res.bind (fun r => r.cancellable) with
      | some c => w.handlers.erase (c, w.cancelled_tag)
      | none => w.handlers
    else w.handlers
  let sources := if w.timeout_tag ≠ 0 then w.sources.erase w.timeout_tag else w.sources
  if ok then
    if w.async_requested_files = 0 ∧ w.infos ≠ [] then none
    else
      let n : Nat := if w.async_requested_files < 0 then w.infos.length
                     else w.async_requested_files.toNat
      let l := w.infos.take n
      let rest := w.infos.drop n
      let l := l.map (add_metadata w.toGDaemonFileEnumerator)
      let res := w.async_res.map (fun r => { r with op_res := l })
      some { w with
        infos := rest
        idle := w.idle ++ res.toList
        cancelled_tag := 0
        timeout_tag := 0
        async_requested_files := 0
        async_res := none
        handlers := handlers
        sources := sources }
  else
    some { w with
      idle := w.idle ++ w.async_res.toList
      cancelled_tag := 0
      timeout_tag := 0
      async_requested_files := 0
      async_res := none
      handlers := handlers
      sources := sources }

/-! ## The push handlers -/

/-- The loop of `handle_got_info`: each child is decoded by
`_g_dbus_get_file_info` (a parameter here), and a decoded info is prepended. -/
def got_info_loop {Raw : Type} (get_file_info : Raw → Option GFileInfo) :
    List Raw → List GFileInfo → List GFileInfo
  | [], infos => infos
  | child :: iter, infos =>
    match get_file_info child with
    | some info => got_info_loop get_file_info iter (info :: infos)
    | none => got_info_loop get_file_info iter infos

/-- The function `handle_got_info`: the decoded list is reversed, concatenated to
the buffer, and a pending request whose count is reached is completed. -/
def handle_got_info {Raw : Type} (get_file_info : Raw → Option GFileInfo)
    (w : World) (arg_infos : List Raw) : Option World :=
  let infos := (got_info_loop get_file_info arg_infos []).reverse
  let w1 : World := { w with infos := w.infos ++ infos }
  if 0 < w1.async_requested_files ∧ w1.async_requested_files ≤ (w1.infos.length : Int) then
    trigger_async_done w1 true
  else some w1

/-- The function `handle_done`: the done flag is set and a pending request is
completed. -/
def handle_done (w : World) : Option World :=
  let w1 : World := { w with done := true }
  if 0 < w1.async_requested_files then trigger_async_done w1 true else some w1

/-! ## The asynchronous pull -/

/-- The first statement of `async_cancelled`, executed before `G_LOCK (infos)`:
the cancelled error is set on the result (a NULL result is left alone). -/
def async_cancelled_set_error (w : World) : World :=
  { w with
    async_res := w.async_res.map (fun r =>
      { r with error := some ⟨GIOErrorCode.CANCELLED, "Operation was cancelled"⟩ }) }

/-- The rest of `async_cancelled`, executed with the infos lock held: the request
is completed with `ok = FALSE`. -/
def async_cancelled_locked (w : World) : Option World :=
  trigger_async_done w false

/-- The function `async_cancelled`, the `cancelled` handler of a request, when it
obtains the infos lock at once (a cancellation on the thread that handles the
other events): the error is set, then the request is completed under the lock.
A handler that runs on another thread and finds the lock taken is followed
in `step_threads`. -/
def async_cancelled (w : World) : Option World :=
  async_cancelled_locked (async_cancelled_set_error w)

/-- The function `async_timeout`, the callback of the deadline timer. -/
def async_timeout (w : World) : Option World :=
  trigger_async_done w true

/-- The test `g_list_length (infos) >= async_requested_files` of
`next_files_async`: the count is converted to `guint`, so a negative count is
never reached. -/
def enough_infos (infos : List GFileInfo) (num_files : Int) : Bool :=
  decide (0 ≤ num_files ∧ num_files ≤ (infos.length : Int))

/-- The result that `g_simple_async_report_error_in_idle` makes for a
`next_files_async` call on an enumerator with a sync connection. -/
def reported_error (id : Nat) : GSimpleAsyncResult :=
  { id := id
    cancellable := none
    error := some ⟨GIOErrorCode.FAILED,
      "Can't do asynchronous next_files() on a file enumerator created synchronously"⟩
    op_res := [] }

/-- The function `g_daemon_file_enumerator_next_files_async`.

On an enumerator with a sync connection an error result is reported in idle
and nothing else happens.  Otherwise the request fields are overwritten, a
new result is created, and the request is either completed at once (done, or
enough infos) or left pending with a timeout source and, when a cancellable
was given, a `cancelled` handler.  `g_cancellable_connect` on a cancellable
that is already cancelled runs `async_cancelled` at once, which locks `infos`
a second time: the call does not return. -/
def g_daemon_file_enumerator_next_files_async (w : World) (num_files : Int)
    (cancellable : Option Nat) : Option World :=
  if w.sync_connection ≠ none then
    some { w with
      idle := w.idle ++ [reported_error w.next_tag]
      next_tag := w.next_tag + 1 }
  else
    let w1 : World := { w with
      cancelled_tag := 0
      timeout_tag := 0
      async_requested_files := num_files
      async_res := some { id := w.next_tag, cancellable := cancellable, error := none, op_res := [] }
      next_tag := w.next_tag + 1 }
    if w1.done = true ∨ enough_infos w1.infos w1.async_requested_files = true then
      trigger_async_done w1 true
    else
      let w2 : World := { w1 with
        timeout_tag := w1.next_tag
        sources := w1.sources ++ [w1.next_tag]
        next_tag := w1.next_tag + 1 }
      match cancellable with
      | none => some w2
      | some c =>
        if c ∈ w2.cancelled then none
        else some { w2 with
          cancelled_tag := w2.next_tag
          handlers := w2.handlers ++ [(c, w2.next_tag)]
          next_tag := w2.next_tag + 1 }

/-- The function `g_daemon_file_enumerator_next_files_finish`, called on a completed
result: a cancelled cancellable gives the cancelled error, otherwise a copy of
the `op_res` list is returned. -/
def g_daemon_file_enumerator_next_files_finish (w : World) (res : GSimpleAsyncResult) :
    Except GError (List GFileInfo) :=
  match res.cancellable with
  | some c =>
    if c ∈ w.cancelled then
      Except.error ⟨GIOErrorCode.CANCELLED, "Operation was cancelled"⟩
    else Except.ok res.op_res
  | none => Except.ok res.op_res

/-! ## The synchronous pull -/

/-- A method call of the daemon on the enumerator object. -/
inductive DBusMessage (Raw : Type) where
  | got_info (arg_infos : List Raw)
  | done

/-- The dispatch of one method call to its handler. -/
def dispatch {Raw : Type} (get_file_info : Raw → Option GFileInfo) (w : World) :
    DBusMessage Raw → Option World
  | DBusMessage.got_info arg_infos => handle_got_info get_file_info w arg_infos
  | DBusMessage.done => handle_done w

/-- The run of the private main loop inside `next_file`: the method calls that
arrive before the loop is quit (by `next_files_sync_check` or by
`sync_timeout`) are dispatched in order. -/
def main_loop_run {Raw : Type} (get_file_info : Raw → Option GFileInfo) :
    World → List (DBusMessage Raw) → Option World
  | w, [] => some w
  | w, m :: ms =>
    match dispatch get_file_info w m with
    | some w1 => main_loop_run get_file_info w1 ms
    | none => none

/-- The function `g_daemon_file_enumerator_next_file`.  `arrivals` are the method
calls dispatched while the call waits; they play no part when it does not
wait.  The result is the error, or the returned info (`none` for NULL). -/
def g_daemon_file_enumerator_next_file {Raw : Type} (get_file_info : Raw → Option GFileInfo)
    (w : World) (arrivals : List (DBusMessage Raw)) :
    Option (Except GError (Option GFileInfo) × World) :=
  if w.sync_connection = none then
    some (Except.error ⟨GIOErrorCode.FAILED,
      "Can't do synchronous next_files() on a file enumerator created asynchronously"⟩, w)
  else
    let waited : Option World :=
      if w.infos = [] ∧ w.done = false then main_loop_run get_file_info w arrivals
      else some w
    match waited with
    | none => none
    | some w1 =>
      match w1.infos with
      | [] => some (Except.ok none, w1)
      | info :: rest =>
        some (Except.ok (some (add_metadata w1.toGDaemonFileEnumerator info)),
              { w1 with infos := rest })

/-! ## Events -/

/-- What can happen to an enumerator that listens on the main connection: a
method call of the daemon, a `next_files_async` call of the consumer, the
firing of a timeout source, the cancellation of a cancellable. -/
inductive Event (Raw : Type) where
  | got_info (arg_infos : List Raw)
  | done
  | next_files_async (num_files : Int) (cancellable : Option Nat)
  | timeout (tag : Nat)
  | cancel (cancellable : Nat)

/-- The emission of `cancelled`: the handlers that were connected when the
emission began are run in order, each only if it is still connected. -/
def emit_cancelled (c : Nat) : List Nat → World → Option World
  | [], w => some w
  | tag :: tags, w =>
    if (c, tag) ∈ w.handlers then
      match async_cancelled w with
      | some w1 => emit_cancelled c tags w1
      | none => none
    else emit_cancelled c tags w

/-- The call `g_cancellable_cancel`: nothing on a cancelled cancellable; otherwise
the flag is set and `cancelled` is emitted. -/
def g_cancellable_cancel (w : World) (c : Nat) : Option World :=
  if c ∈ w.cancelled then some w
  else
    let w1 : World := { w with cancelled := c :: w.cancelled }
    emit_cancelled c ((w1.handlers.filter (fun h => h.1 = c)).map (fun h => h.2)) w1

/-- The firing of the timeout source `tag`: an armed source runs
`async_timeout` and, as the callback returns FALSE, is destroyed. -/
def timeout_fires (w : World) (tag : Nat) : Option World :=
  if tag ∈ w.sources then
    match async_timeout w with
    | some w1 => some { w1 with sources := w1.sources.erase tag }
    | none => none
  else some w

/-- One event. -/
def step {Raw : Type} (get_file_info : Raw → Option GFileInfo) (w : World) :
    Event Raw → Option World
  | Event.got_info arg_infos => handle_got_info get_file_info w arg_infos
  | Event.done => handle_done w
  | Event.next_files_async num_files cancellable =>
    g_daemon_file_enumerator_next_files_async w num_files cancellable
  | Event.timeout tag => timeout_fires w tag
  | Event.cancel c => g_cancellable_cancel w c

/-- A sequence of events, one after the other. -/
def run {Raw : Type} (get_file_info : Raw → Option GFileInfo) :
    World → List (Event Raw) → Option World
  | w, [] => some w
  | w, e :: es =>
    match step get_file_info w e with
    | some w1 => run get_file_info w1 es
    | none => none

/-! ## A cancellation on another thread -/

/-- The enumerator while a second thread may be inside `g_cancellable_cancel`.
The main thread handles the method calls of the daemon, the calls of the
consumer and the timeout sources, each handler under the infos lock.
`emitting` is `some (c, tags)` while the other thread emits `cancelled` on the
cancellable `c`: a handler `async_cancelled` has executed its first statement
and stands before `G_LOCK (infos)`; `tags` are the handlers of the emission
that come after it. -/
structure Threads where
  world : World
  emitting : Option (Nat × List Nat)
deriving DecidableEq

/-- The emission of `cancelled` on the other thread goes on to its next handler
that is still connected: `async_cancelled` executes its first statement and
arrives at `G_LOCK (infos)`.  With no handler left the emission is over. -/
def emission_continues (c : Nat) : List Nat → World → Threads
  | [], w => { world := w, emitting := none }
  | tag :: tags, w =>
    if (c, tag) ∈ w.handlers then
      { world := async_cancelled_set_error w, emitting := some (c, tags) }
    else emission_continues c tags w

/-- The call `g_cancellable_cancel` on the other thread, up to the point where its
first handler stands before the lock: nothing on a cancelled cancellable;
otherwise the flag is set and the emission begins.  A thread that is still
inside an emission begins no other. -/
def cancel_begins (t : Threads) (c : Nat) : Threads :=
  if t.emitting ≠ none ∨ c ∈ t.world.cancelled then t
  else
    let w1 : World := { t.world with cancelled := c :: t.world.cancelled }
    emission_continues c ((w1.handlers.filter (fun h => h.1 = c)).map (fun h => h.2)) w1

/-- The handler that stands before `G_LOCK (infos)` obtains the lock, completes
the request with `ok = FALSE` and unlocks; the emission goes on.  Nothing
happens when no handler waits. -/
def handler_locks (t : Threads) : Option Threads :=
  match t.emitting with
  | none => some t
  | some (c, tags) =>
    match async_cancelled_locked t.world with
    | some w1 => some (emission_continues c tags w1)
    | none => none

/-- Whether the call `g_cancellable_disconnect (cancellable, cancelled_tag)` of
`trigger_async_done` waits: it is made for a nonzero tag, and it returns only
when no emission of `cancelled` is in progress on that cancellable. -/
def g_cancellable_disconnect_waits (t : Threads) : Bool :=
  match t.world.async_res.bind (fun r => r.cancellable), t.emitting with
  | some c, some (c1, _) => decide (t.world.cancelled_tag ≠ 0 ∧ c = c1)
  | _, _ => false

/-- The call `trigger_async_done (daemon, TRUE)` of a handler on the main thread,
which holds the infos lock.  When `g_cancellable_disconnect` waits for the
emission to end, the handler of that emission waits for the infos lock: neither
thread goes on, and the call does not return. -/
def trigger_async_done_main (t : Threads) : Option Threads :=
  if g_cancellable_disconnect_waits t = true then none
  else
    match trigger_async_done t.world true with
    | some w1 => some { t with world := w1 }
    | none => none

/-- One event on the main thread while the other thread may be emitting: the
handlers `handle_got_info`, `handle_done` and `async_timeout` with
`trigger_async_done_main` as their completion routine.  A `next_files_async`
call that completes at once has reset `cancelled_tag` before, so it
disconnects nothing; `g_cancellable_cancel` on the main thread completes with
`ok = FALSE`, which disconnects without waiting. -/
def step_main {Raw : Type} (get_file_info : Raw → Option GFileInfo) (t : Threads) :
    Event Raw → Option Threads
  | Event.got_info arg_infos =>
    let infos := (got_info_loop get_file_info arg_infos []).reverse
    let t1 : Threads := { t with world := { t.world with infos := t.world.infos ++ infos } }
    if 0 < t1.world.async_requested_files ∧
        t1.world.async_requested_files ≤ (t1.world.infos.length : Int) then
      trigger_async_done_main t1
    else some t1
  | Event.done =>
    let t1 : Threads := { t with world := { t.world with done := true } }
    if 0 < t1.world.async_requested_files then trigger_async_done_main t1 else some t1
  | Event.next_files_async num_files cancellable =>
    match g_daemon_file_enumerator_next_files_async t.world num_files cancellable with
    | some w1 => some { t with world := w1 }
    | none => none
  | Event.timeout tag =>
    if tag ∈ t.world.sources then
      match trigger_async_done_main t with
      | some t1 => some { t1 with world := { t1.world with sources := t1.world.sources.erase tag } }
      | none => none
    else some t
  | Event.cancel c =>
    match g_cancellable_cancel t.world c with
    | some w1 => some { t with world := w1 }
    | none => none

/-- What the two threads do: the main thread handles an event to its end; the
other thread begins a cancellation; the handler of that thread obtains the
infos lock. -/
inductive ThreadEvent (Raw : Type) where
  | main (e : Event Raw)
  | cancel_begins (c : Nat)
  | handler_locks

/-- One step of the two threads. -/
def step_threads {Raw : Type} (get_file_info : Raw → Option GFileInfo) (t : Threads) :
    ThreadEvent Raw → Option Threads
  | ThreadEvent.main e => step_main get_file_info t e
  | ThreadEvent.cancel_begins c => some (cancel_begins t c)
  | ThreadEvent.handler_locks => handler_locks t

/-- A schedule of the two threads, step after step. -/
def run_threads {Raw : Type} (get_file_info : Raw → Option GFileInfo) :
    Threads → List (ThreadEvent Raw) → Option Threads
  | t, [] => some t
  | t, e :: es =>
    match step_threads get_file_info t e with
    | some t1 => run_threads get_file_info t1 es
    | none => none

/-! ## The base class -/

/-- Modelled from the spec: the `GFileEnumerator` base class of GIO (the `parent`
member of the struct; its code is not part of these sources), through which the
consumer reaches the class methods installed by
`g_daemon_file_enumerator_class_init`.  It keeps "at most one outstanding
AsyncBatchRequest" per enumerator: `pending` is set from the moment a request
is passed to the class method until its result is handed to the consumer;
`delivered` counts the results of `daemon.idle` that have been handed over;
`reported` are the answers that the base class gives by itself.  Closing the
enumerator is not among the events followed here, so the `closed` flag of the
base class is left out. -/
structure GFileEnumerator where
  daemon : World
  pending : Bool
  delivered : Nat
  reported : List (Except GError (List GFileInfo))

/-- Modelled from the spec: the error of a call made while a request is
outstanding (UsageError), which GIO reports as `G_IO_ERROR_PENDING`. -/
def pending_error : GError :=
  ⟨GIOErrorCode.PENDING, "File enumerator has outstanding operation"⟩

/-- Modelled from the spec: `NextBatch` as the consumer calls it,
`g_file_enumerator_next_files_async` of the base class.  A negative count is
refused without effect and the count 0 answered with an empty list, neither
reaching the class method.  The call "fails immediately with UsageError if
another AsyncBatchRequest is already outstanding on the same enumerator";
otherwise the request is marked outstanding and passed to the class method
`g_daemon_file_enumerator_next_files_async`. -/
def g_file_enumerator_next_files_async (e : GFileEnumerator) (num_files : Int)
    (cancellable : Option Nat) : Option GFileEnumerator :=
  if num_files < 0 then some e
  else if num_files = 0 then some { e with reported := e.reported ++ [Except.ok []] }
  else if e.pending = true then
    some { e with reported := e.reported ++ [Except.error pending_error] }
  else
    match g_daemon_file_enumerator_next_files_async e.daemon num_files cancellable with
    | some w1 => some { e with daemon := w1, pending := true }
    | none => none

/-- Modelled from the spec: the deferred dispatch of a completed result
(`next_async_callback_wrapper` of the base class): the oldest result of
`daemon.idle` that has not been handed over is handed to the consumer, and the
request is no longer outstanding.  Nothing happens when every result has been
handed over. -/
def next_async_callback_wrapper (e : GFileEnumerator) : GFileEnumerator :=
  if e.delivered < e.daemon.idle.length then
    { e with pending := false, delivered := e.delivered + 1 }
  else e

/-- What can happen to an enumerator that the consumer holds through the base
class: an event of the enumerator, or the dispatch of a completed result. -/
inductive Call (Raw : Type) where
  | event (e : Event Raw)
  | callback

/-- One call or event: `next_files_async` goes through the base class, the other
events reach the enumerator as they are. -/
def step_call {Raw : Type} (get_file_info : Raw → Option GFileInfo) (e : GFileEnumerator) :
    Call Raw → Option GFileEnumerator
  | Call.event (Event.next_files_async num_files cancellable) =>
    g_file_enumerator_next_files_async e num_files cancellable
  | Call.event (Event.got_info arg_infos) =>
    (step get_file_info e.daemon (Event.got_info arg_infos)).map (fun w => { e with daemon := w })
  | Call.event Event.done =>
    (step get_file_info e.daemon Event.done).map (fun w => { e with daemon := w })
  | Call.event (Event.timeout tag) =>
    (step get_file_info e.daemon (Event.timeout tag)).map (fun w => { e with daemon := w })
  | Call.event (Event.cancel c) =>
    (step get_file_info e.daemon (Event.cancel c)).map (fun w => { e with daemon := w })
  | Call.callback => some (next_async_callback_wrapper e)

/-- A sequence of calls and events, one after the other. -/
def run_calls {Raw : Type} (get_file_info : Raw → Option GFileInfo) :
    GFileEnumerator → List (Call Raw) → Option GFileEnumerator
  | e, [] => some e
  | e, c :: cs =>
    match step_call get_file_info e c with
    | some e1 => run_calls get_file_info e1 cs
    | none => none

/-! ## Draining -/

/-- Repeated `next_file` calls until one returns NULL: the infos returned, in
order, and the final state.  A call that waits dispatches the next list of
`waits` (nothing once they are used up); a call that does not wait dispatches
nothing.  The outcome is `none` when the fuel runs out first, or on an error. -/
def drain_next_file {Raw : Type} (get_file_info : Raw → Option GFileInfo) :
    Nat → World → List (List (DBusMessage Raw)) → Option (List GFileInfo × World)
  | 0, _, _ => none
  | fuel + 1, w, waits =>
    match g_daemon_file_enumerator_next_file get_file_info w (waits.headD []) with
    | some (Except.ok (some info), w1) =>
      match drain_next_file get_file_info fuel w1
          (if w.infos = [] ∧ w.done = false then waits.tail else waits) with
      | some (got, w2) => some (info :: got, w2)
      | none => none
    | some (Except.ok none, w1) => some ([], w1)
    | some (Except.error _, _) => none
    | none => none

/-- The waits of a drain: each chunk of pushes is dispatched during one wait,
the last pushes and Done during the final one. -/
def waits_of {Raw : Type} (chunks : List (List (List Raw))) (last : List (List Raw)) :
    List (List (DBusMessage Raw)) :=
  chunks.map (fun ch => ch.map DBusMessage.got_info) ++
    [last.map DBusMessage.got_info ++ [DBusMessage.done]]

/-- What the consumer obtains from the completed results, in completion order:
each result is finished, and an error contributes nothing. -/
def finished_files (w : World) (results : List GSimpleAsyncResult) : List GFileInfo :=
  (results.map (fun r =>
    match g_daemon_file_enumerator_next_files_finish w r with
    | Except.ok l => l
    | Except.error _ => [])).flatten

/-- The entries of a sequence of pushes, in push order: the decodable records
of each batch, batch after batch. -/
def pushed_infos {Raw : Type} (get_file_info : Raw → Option GFileInfo)
    (batches : List (List Raw)) : List GFileInfo :=
  (batches.map (fun b => b.filterMap get_file_info)).flatten

/-- The batches pushed by a sequence of events, in order. -/
def pushed_by {Raw : Type} : List (Event Raw) → List (List Raw)
  | [] => []
  | Event.got_info arg_infos :: es => arg_infos :: pushed_by es
  | _ :: es => pushed_by es

/-! ## Predicates on events and states -/

/-- The consumer asks for a positive number of files. -/
def Event.positive_count {Raw : Type} : Event Raw → Bool
  | Event.next_files_async num_files _ => decide (0 < num_files)
  | _ => true

/-- The event is not a call of the consumer: a push, a timeout or a
cancellation. -/
def Event.is_trigger {Raw : Type} : Event Raw → Bool
  | Event.next_files_async _ _ => false
  | _ => true

/-- The event is a push, Done, a timeout, a cancellation, or a request for a
positive count without cancellable. -/
def Event.plain_request {Raw : Type} : Event Raw → Bool
  | Event.next_files_async num_files cancellable =>
    decide (0 < num_files) && cancellable.isNone
  | _ => true

/-- The event completes an outstanding request with timeout source `t` and
cancellable `c` whatever the buffer holds: Done, the firing of `t`, the
cancellation of `c`. -/
def Event.completes {Raw : Type} (c : Option Nat) (t : Nat) : Event Raw → Bool
  | Event.done => true
  | Event.timeout tag => decide (tag = t)
  | Event.cancel tok => decide (c = some tok)
  | _ => false

/-- A pending request is one that cannot be satisfied yet: the invariant of the
request fields. -/
def pending_unsatisfiable (w : World) : Prop :=
  0 < w.async_requested_files →
    w.done = false ∧ (w.infos.length : Int) < w.async_requested_files

/-- The request with result identity `id`, count `N` and cancellable `c` is
outstanding: its result is the pending one, its timeout source `t` is the only
armed source, and its handler, if it has a cancellable, the only handler;
`done` holds the results completed so far. -/
def Outstanding (w : World) (done : List GSimpleAsyncResult) (id : Nat) (N : Int)
    (c : Option Nat) (t : Nat) : Prop :=
  w.async_requested_files = N ∧
  w.async_res = some { id := id, cancellable := c, error := none, op_res := [] } ∧
  w.timeout_tag = t ∧ t ≠ 0 ∧ w.sources = [t] ∧
  (match c with
    | none => w.cancelled_tag = 0 ∧ w.handlers = []
    | some tok => w.cancelled_tag ≠ 0 ∧ w.handlers = [(tok, w.cancelled_tag)] ∧
        tok ∉ w.cancelled) ∧
  w.idle = done

/-- The request with result identity `id` and cancellable `c` has been
completed, once: exactly its result was added to the completed ones, either
without error or with the cancelled error, an empty list and its cancellable
cancelled; no request is pending, no source armed, no handler connected. -/
def CompletedOnce (w : World) (done : List GSimpleAsyncResult) (id : Nat)
    (c : Option Nat) : Prop :=
  w.async_requested_files = 0 ∧ w.async_res = none ∧ w.sources = [] ∧ w.handlers = [] ∧
  ∃ res : GSimpleAsyncResult, w.idle = done ++ [res] ∧ res.id = id ∧ res.cancellable = c ∧
    (res.error = none ∨
      (res.error = some ⟨GIOErrorCode.CANCELLED, "Operation was cancelled"⟩ ∧ res.op_res = [] ∧
        ∃ tok, c = some tok ∧ tok ∈ w.cancelled))

/-- No request is pending and GLib holds neither a source nor a handler for the
enumerator. -/
def NoRequest (w : World) : Prop :=
  w.async_requested_files = 0 ∧ w.async_res = none ∧ w.sources = [] ∧ w.handlers = []

/-- The state of the base class agrees with that of the enumerator: at most one
completed result has not been handed over, and none when the base class has
no request outstanding; the enumerator holds a request only while the base
class has one outstanding, and that request is one for a positive count that
the buffer does not reach. -/
def Guarded (e : GFileEnumerator) : Prop :=
  e.delivered ≤ e.daemon.idle.length ∧ e.daemon.idle.length ≤ e.delivered + 1 ∧
  (e.pending = false → e.delivered = e.daemon.idle.length) ∧
  (NoRequest e.daemon ∨
    (e.pending = true ∧ e.delivered = e.daemon.idle.length ∧
      ∃ (id : Nat) (N : Int) (c : Option Nat) (t : Nat), 0 < N ∧
        Outstanding e.daemon e.daemon.idle id N c t ∧ (e.daemon.infos.length : Int) < N))

/-- Nothing is lost or reordered: the lists of the completed results, in
completion order, followed by the buffer (with metadata added) are the entries
`pushed` (with metadata added); the pending result, if any, is still empty, and
no result carries a cancellable. -/
def Conserved (w : World) (pushed : List GFileInfo) : Prop :=
  (w.async_res = none → w.async_requested_files = 0) ∧
  0 ≤ w.async_requested_files ∧
  (∀ r, w.async_res = some r → r.op_res = [] ∧ r.cancellable = none) ∧
  (∀ r ∈ w.idle, r.cancellable = none) ∧
  (w.idle.map (fun r => r.op_res)).flatten ++ w.infos.map (add_metadata w.toGDaemonFileEnumerator)
    = pushed.map (add_metadata w.toGDaemonFileEnumerator)

/-! ## Sample enumerators -/

/-- An info that carries only a name. -/
def sample_info (name : String) : GFileInfo :=
  { name := some name, attributes := [] }

/-- A decoder of raw records that are names: the empty name does not decode. -/
def sample_get_file_info (child : String) : Option GFileInfo :=
  if child = "" then none else some (sample_info child)

/-- A matcher that requests no metadata. -/
def sample_matcher : GFileAttributeMatcher :=
  { all := false, namespaces := ["standard"], attributes := [] }

/-- A new enumerator that listens on the main connection. -/
def sample_async : World :=
  World.fresh (g_daemon_file_enumerator_new 1 "/dir" sample_matcher false none)

/-- A new enumerator with a sync connection. -/
def sample_sync : World :=
  World.fresh (g_daemon_file_enumerator_set_sync_connection
    (g_daemon_file_enumerator_new 2 "/dir" sample_matcher true none) 7)

/-- A pending request for `n` files on `sample_async` with the given buffer:
result 1, timeout source 2, no cancellable. -/
def sample_pending (names : List String) (n : Int) : World :=
  { sample_async with
    infos := names.map sample_info
    async_requested_files := n
    async_res := some { id := 1, cancellable := none, error := none, op_res := [] }
    timeout_tag := 2
    sources := [2]
    next_tag := 3 }

/-- The enumerator `sample_async` with the given names buffered and no request. -/
def sample_buffered (names : List String) : World :=
  { sample_async with infos := names.map sample_info }

/-- The enumerator `sample_buffered names` after `next_files_async` for 3 files
with cancellable 1 has left its request pending: result 1, timeout source 2,
handler 3. -/
def sample_requested (names : List String) : World :=
  { sample_buffered names with
    async_requested_files := 3
    async_res := some { id := 1, cancellable := some 1, error := none, op_res := [] }
    timeout_tag := 2
    cancelled_tag := 3
    sources := [2]
    handlers := [(1, 3)]
    next_tag := 4 }

/-- The result of a request for two files with cancellable 1 that was completed
with the entries "a" and "b". -/
def sample_result : GSimpleAsyncResult :=
  { id := 1, cancellable := some 1, error := none, op_res := [sample_info "a", sample_info "b"] }

/-- The enumerator `sample_async` after that request was completed at once, with
the given cancellables cancelled. -/
def sample_completed (cancelled : List Nat) : World :=
  { sample_async with next_tag := 2, cancelled := cancelled, idle := [sample_result] }

/-- The enumerator `sample_async` after Done. -/
def sample_done : World :=
  { sample_async with done := true }

/-- The enumerator `sample_requested ["a"]` after another thread has called
`g_cancellable_cancel` on the cancellable 1: the flag is set, the handler
`async_cancelled` has set the error on the result and stands before
`G_LOCK (infos)`. -/
def sample_cancelling : Threads :=
  { world :=
      { sample_requested ["a"] with
        async_res := some { id := 1, cancellable := some 1, error := some ⟨GIOErrorCode.CANCELLED, "Operation was cancelled"⟩, op_res := [] }
        cancelled := [1] }
    emitting := some (1, []) }

/-- The enumerator `sample_async` as the consumer receives it: no request
outstanding. -/
def sample_enumerator : GFileEnumerator :=
  { daemon := sample_async, pending := false, delivered := 0, reported := [] }

/-- The enumerator `sample_enumerator` after a request for 5 files and a push of the
record "a": the request is outstanding. -/
def sample_outstanding : GFileEnumerator :=
  { daemon := sample_pending ["a"] 5, pending := true, delivered := 0, reported := [] }

/-! ## Lemmas on the handlers -/

theorem got_info_loop_eq {Raw : Type} (f : Raw → Option GFileInfo) (l : List Raw)
    (acc : List GFileInfo) :
    got_info_loop f l acc = (l.filterMap f).reverse ++ acc := by
  induction l generalizing acc with
  | nil => simp [got_info_loop]
  | cons child iter ih =>
    cases h : f child with
    | none => simp [got_info_loop, h, ih]
    | some info => simp [got_info_loop, h, ih]

theorem add_metadata_congr (d1 d2 : GDaemonFileEnumerator)
    (h1 : d1.metadata_tree = d2.metadata_tree) (h2 : d1.container_path = d2.container_path)
    (h3 : d1.matcher = d2.matcher) : add_metadata d1 = add_metadata d2 := by
  funext info
  unfold add_metadata
  rw [h1, h2, h3]

theorem add_metadata_eq_with (d : GDaemonFileEnumerator) :
    add_metadata d = add_metadata_with d.metadata_tree d.container_path d.matcher := by
  funext info
  rfl

theorem add_metadata_of_no_tree (d : GDaemonFileEnumerator) (h : d.metadata_tree = none) :
    add_metadata d = id := by
  funext info
  simp [add_metadata, h]

theorem World.infos_eta (w : World) (l : List GFileInfo) (h : w.infos = l) :
    ({ w with infos := l } : World) = w := by
  obtain ⟨⟨_, _, _, _, _, _, _, _, _, _, _, _⟩, _, _, _, _, _⟩ := w
  simp only at h
  subst h
  rfl

/-- The world after a completion with `ok = TRUE` of a request for a positive
count. -/
theorem trigger_async_done_ok_eq (w : World) (r : GSimpleAsyncResult)
    (hN : 0 < w.async_requested_files) (hres : w.async_res = some r) :
    trigger_async_done w true = some { w with
      infos := w.infos.drop w.async_requested_files.toNat
      idle := w.idle ++ [{ r with op_res := (w.infos.take w.async_requested_files.toNat).map (add_metadata w.toGDaemonFileEnumerator) }]
      cancelled_tag := 0
      timeout_tag := 0
      async_requested_files := 0
      async_res := none
      handlers := if w.cancelled_tag ≠ 0 then
          match r.cancellable with
          | some c => w.handlers.erase (c, w.cancelled_tag)
          | none => w.handlers
        else w.handlers
      sources := if w.timeout_tag ≠ 0 then w.sources.erase w.timeout_tag else w.sources } := by
  have h0 : w.async_requested_files ≠ 0 := hN.ne'
  have h1 : ¬ w.async_requested_files < 0 := not_lt.mpr hN.le
  simp [trigger_async_done, h0, h1, hres]

theorem trigger_async_done_clears (w w1 : World) (ok : Bool)
    (h : trigger_async_done w ok = some w1) : w1.async_requested_files = 0 := by
  unfold trigger_async_done at h
  cases ok with
  | true =>
    simp only [if_true] at h
    split at h
    · cases h
    · cases h
      rfl
  | false =>
    simp only [Bool.false_eq_true, if_false] at h
    cases h
    rfl

theorem handle_got_info_no_request {Raw : Type} (f : Raw → Option GFileInfo) (w : World)
    (arg_infos : List Raw) (h : w.async_requested_files = 0) :
    handle_got_info f w arg_infos = some { w with infos := w.infos ++ arg_infos.filterMap f } := by
  have e1 : (got_info_loop f arg_infos []).reverse = arg_infos.filterMap f := by
    simp [got_info_loop_eq]
  simp [handle_got_info, e1, h]

theorem run_append {Raw : Type} (f : Raw → Option GFileInfo) (es1 es2 : List (Event Raw))
    (w : World) :
    run f w (es1 ++ es2) = (run f w es1).bind (fun w1 => run f w1 es2) := by
  induction es1 generalizing w with
  | nil => simp [run]
  | cons e es ih =>
    simp only [List.cons_append, run]
    cases step f w e with
    | none => simp
    | some w1 => simp [ih]

theorem main_loop_run_append {Raw : Type} (f : Raw → Option GFileInfo)
    (ms1 ms2 : List (DBusMessage Raw)) (w : World) :
    main_loop_run f w (ms1 ++ ms2)
      = (main_loop_run f w ms1).bind (fun w1 => main_loop_run f w1 ms2) := by
  induction ms1 generalizing w with
  | nil => simp [main_loop_run]
  | cons m ms ih =>
    simp only [List.cons_append, main_loop_run]
    cases dispatch f w m with
    | none => simp
    | some w1 => simp [ih]

theorem pushed_infos_cons {Raw : Type} (f : Raw → Option GFileInfo) (b : List Raw)
    (bs : List (List Raw)) :
    pushed_infos f (b :: bs) = b.filterMap f ++ pushed_infos f bs := by
  simp [pushed_infos]

theorem pushed_infos_append {Raw : Type} (f : Raw → Option GFileInfo)
    (b1 b2 : List (List Raw)) :
    pushed_infos f (b1 ++ b2) = pushed_infos f b1 ++ pushed_infos f b2 := by
  simp [pushed_infos]

theorem pushed_by_cons {Raw : Type} (e : Event Raw) (es : List (Event Raw)) :
    pushed_by (e :: es) = pushed_by [e] ++ pushed_by es := by
  cases e <;> simp [pushed_by]

theorem run_pushes {Raw : Type} (f : Raw → Option GFileInfo) (batches : List (List Raw))
    (w : World) (h : w.async_requested_files = 0) :
    run f w (batches.map Event.got_info)
      = some { w with infos := w.infos ++ pushed_infos f batches } := by
  induction batches generalizing w with
  | nil => simp [run, pushed_infos]
  | cons b bs ih =>
    simp only [List.map_cons, run, step, handle_got_info_no_request f w b h]
    rw [ih { w with infos := w.infos ++ b.filterMap f } h]
    simp [pushed_infos_cons]

theorem main_loop_run_pushes {Raw : Type} (f : Raw → Option GFileInfo)
    (batches : List (List Raw)) (w : World) (h : w.async_requested_files = 0) :
    main_loop_run f w (batches.map DBusMessage.got_info)
      = some { w with infos := w.infos ++ pushed_infos f batches } := by
  induction batches generalizing w with
  | nil => simp [main_loop_run, pushed_infos]
  | cons b bs ih =>
    simp only [List.map_cons, main_loop_run, dispatch, handle_got_info_no_request f w b h]
    rw [ih { w with infos := w.infos ++ b.filterMap f } h]
    simp [pushed_infos_cons]

theorem main_loop_run_last {Raw : Type} (f : Raw → Option GFileInfo) (last : List (List Raw))
    (w : World) (hreq : w.async_requested_files = 0) (hl : w.infos = []) :
    main_loop_run f w (last.map DBusMessage.got_info ++ [DBusMessage.done])
      = some { w with infos := pushed_infos f last, done := true } := by
  rw [main_loop_run_append, main_loop_run_pushes f last w hreq]
  simp [main_loop_run, dispatch, handle_done, hreq, hl]

/-! ## Lemmas on draining -/

theorem next_file_pop {Raw : Type} (f : Raw → Option GFileInfo) (w : World)
    (arrivals : List (DBusMessage Raw)) (a : GFileInfo) (l : List GFileInfo)
    (hs : w.sync_connection ≠ none) (hl : w.infos = a :: l) :
    g_daemon_file_enumerator_next_file f w arrivals
      = some (Except.ok (some (add_metadata w.toGDaemonFileEnumerator a)), { w with infos := l }) := by
  have hnw : ¬ (w.infos = [] ∧ w.done = false) := by simp [hl]
  simp only [g_daemon_file_enumerator_next_file, hs, if_false, hnw]
  simp [hl]

theorem next_file_wait {Raw : Type} (f : Raw → Option GFileInfo) (w w1 : World)
    (arrivals : List (DBusMessage Raw))
    (hs : w.sync_connection ≠ none) (hl : w.infos = []) (hd : w.done = false)
    (hrun : main_loop_run f w arrivals = some w1) :
    g_daemon_file_enumerator_next_file f w arrivals
      = match w1.infos with
        | [] => some (Except.ok none, w1)
        | info :: rest =>
          some (Except.ok (some (add_metadata w1.toGDaemonFileEnumerator info)),
                { w1 with infos := rest }) := by
  simp only [g_daemon_file_enumerator_next_file, hs, if_false, hl, hd, and_self, if_true, hrun]

theorem drain_next_file_step {Raw : Type} (f : Raw → Option GFileInfo) (w w1 : World) (fuel : Nat)
    (waits : List (List (DBusMessage Raw))) (info : GFileInfo)
    (h : g_daemon_file_enumerator_next_file f w (waits.headD [])
      = some (Except.ok (some info), w1)) :
    drain_next_file f (fuel + 1) w waits
      = (drain_next_file f fuel w1 (if w.infos = [] ∧ w.done = false then waits.tail else waits)).map
          (fun p => (info :: p.1, p.2)) := by
  simp only [drain_next_file, h]
  cases drain_next_file f fuel w1 (if w.infos = [] ∧ w.done = false then waits.tail else waits) with
  | none => rfl
  | some p => rfl

theorem drain_next_file_stop {Raw : Type} (f : Raw → Option GFileInfo) (w w1 : World) (fuel : Nat)
    (waits : List (List (DBusMessage Raw)))
    (h : g_daemon_file_enumerator_next_file f w (waits.headD []) = some (Except.ok none, w1)) :
    drain_next_file f (fuel + 1) w waits = some ([], w1) := by
  simp only [drain_next_file, h]

theorem drain_next_file_pop {Raw : Type} (f : Raw → Option GFileInfo) (w : World) (fuel : Nat)
    (waits : List (List (DBusMessage Raw))) (a : GFileInfo) (l : List GFileInfo)
    (hs : w.sync_connection ≠ none) (hl : w.infos = a :: l) :
    drain_next_file f (fuel + 1) w waits
      = (drain_next_file f fuel { w with infos := l } waits).map
          (fun p => (add_metadata w.toGDaemonFileEnumerator a :: p.1, p.2)) := by
  have hnw : ¬ (w.infos = [] ∧ w.done = false) := by simp [hl]
  rw [drain_next_file_step f w _ fuel waits _ (next_file_pop f w _ a l hs hl), if_neg hnw]

theorem drain_next_file_pops {Raw : Type} (f : Raw → Option GFileInfo) (l : List GFileInfo)
    (w : World) (fuel : Nat) (waits : List (List (DBusMessage Raw)))
    (hs : w.sync_connection ≠ none) (hl : w.infos = l) :
    drain_next_file f (fuel + l.length) w waits
      = (drain_next_file f fuel { w with infos := [] } waits).map
          (fun p => (l.map (add_metadata w.toGDaemonFileEnumerator) ++ p.1, p.2)) := by
  induction l generalizing w with
  | nil =>
    rw [World.infos_eta w [] hl]
    simp only [List.length_nil, Nat.add_zero, List.map_nil, List.nil_append]
    cases drain_next_file f fuel w waits with
    | none => rfl
    | some p => rfl
  | cons a l ih =>
    have h1 := drain_next_file_pop f w (fuel + l.length) waits a l hs hl
    have h2 := ih { w with infos := l } hs rfl
    simp only [List.length_cons, ← Nat.add_assoc]
    rw [h1, h2]
    simp only [add_metadata_eq_with]
    cases drain_next_file f fuel { w with infos := [] } waits with
    | none => rfl
    | some p => rfl

/-- The end of a drain: the buffer is empty and the enumerator is done. -/
theorem drain_next_file_end {Raw : Type} (f : Raw → Option GFileInfo) (w : World) (fuel : Nat)
    (waits : List (List (DBusMessage Raw)))
    (hs : w.sync_connection ≠ none) (hl : w.infos = []) (hd : w.done = true) :
    drain_next_file f (fuel + 1) w waits = some ([], w) := by
  apply drain_next_file_stop
  have hnw : ¬ (w.infos = [] ∧ w.done = false) := by simp [hd]
  simp only [g_daemon_file_enumerator_next_file, hs, if_false, hnw]
  simp [hl]

/-- The final wait of a drain: the last pushes and Done arrive, and the rest of
the drain returns them. -/
theorem drain_next_file_last {Raw : Type} (f : Raw → Option GFileInfo) (last : List (List Raw))
    (w : World) (fuel : Nat) (waits : List (List (DBusMessage Raw)))
    (hs : w.sync_connection ≠ none) (hreq : w.async_requested_files = 0)
    (hl : w.infos = []) (hd : w.done = false) :
    drain_next_file f (fuel + 1 + (pushed_infos f last).length) w
        ((last.map DBusMessage.got_info ++ [DBusMessage.done]) :: waits)
      = some ((pushed_infos f last).map (add_metadata w.toGDaemonFileEnumerator),
              { w with infos := [], done := true }) := by
  have hrun := main_loop_run_last f last w hreq hl
  have hw := next_file_wait f w _ _ hs hl hd hrun
  cases hp : pushed_infos f last with
  | nil =>
    simp only [hp] at hw
    exact drain_next_file_stop f w _ fuel ((last.map DBusMessage.got_info ++ [DBusMessage.done]) :: waits) hw
  | cons a rest =>
    simp only [hp] at hw
    have e2 := drain_next_file_pops f rest { w with infos := rest, done := true } (fuel + 1) waits hs rfl
    have e3 : drain_next_file f (fuel + 1) { w with infos := [], done := true } waits
        = some ([], { w with infos := [], done := true }) :=
      drain_next_file_end f { w with infos := [], done := true } fuel waits hs rfl rfl
    have e1 := drain_next_file_step f w _ (fuel + 1 + rest.length)
      ((last.map DBusMessage.got_info ++ [DBusMessage.done]) :: waits) _ hw
    rw [if_pos ⟨hl, hd⟩] at e1
    rw [List.length_cons, ← Nat.add_assoc, e1]
    simp only [List.tail_cons]
    rw [e2, e3]
    simp [add_metadata_eq_with]

/-- A wait of a drain in which a chunk of pushes with at least one decodable
record arrives: the first entry is returned, the others are buffered. -/
theorem drain_next_file_chunk {Raw : Type} (f : Raw → Option GFileInfo) (ch : List (List Raw))
    (w : World) (fuel : Nat) (waits : List (List (DBusMessage Raw)))
    (a : GFileInfo) (rest : List GFileInfo)
    (hs : w.sync_connection ≠ none) (hreq : w.async_requested_files = 0)
    (hl : w.infos = []) (hd : w.done = false) (hp : pushed_infos f ch = a :: rest) :
    drain_next_file f (fuel + 1) w (ch.map DBusMessage.got_info :: waits)
      = (drain_next_file f fuel { w with infos := rest } waits).map
          (fun p => (add_metadata w.toGDaemonFileEnumerator a :: p.1, p.2)) := by
  have hrun : main_loop_run f w (ch.map DBusMessage.got_info)
      = some { w with infos := a :: rest } := by
    rw [main_loop_run_pushes f ch w hreq, hp, hl]
    rfl
  have hw := next_file_wait f w _ _ hs hl hd hrun
  simp only at hw
  have e1 := drain_next_file_step f w _ fuel (ch.map DBusMessage.got_info :: waits) _ hw
  rw [if_pos ⟨hl, hd⟩] at e1
  rw [e1]
  simp only [List.tail_cons, add_metadata_eq_with]

theorem drain_next_file_chunks_empty {Raw : Type} (f : Raw → Option GFileInfo)
    (chunks : List (List (List Raw))) (last : List (List Raw)) (w : World) (fuel : Nat)
    (hs : w.sync_connection ≠ none) (hreq : w.async_requested_files = 0)
    (hl : w.infos = []) (hd : w.done = false)
    (hprog : ∀ ch ∈ chunks, pushed_infos f ch ≠ []) :
    drain_next_file f (fuel + 1 + (pushed_infos f (chunks.flatten ++ last)).length) w
        (waits_of chunks last)
      = some ((pushed_infos f (chunks.flatten ++ last)).map
                (add_metadata w.toGDaemonFileEnumerator),
              { w with infos := [], done := true }) := by
  induction chunks generalizing w with
  | nil =>
    simpa [waits_of] using drain_next_file_last f last w fuel [] hs hreq hl hd
  | cons ch chs ih =>
    have hne := hprog ch (List.mem_cons_self _ _)
    have hprog2 : ∀ c ∈ chs, pushed_infos f c ≠ [] :=
      fun c hc => hprog c (List.mem_cons_of_mem _ hc)
    cases hp : pushed_infos f ch with
    | nil => exact absurd hp hne
    | cons a rest =>
      have hP : pushed_infos f ((ch :: chs).flatten ++ last)
          = a :: (rest ++ pushed_infos f (chs.flatten ++ last)) := by
        simp only [List.flatten_cons, List.append_assoc, pushed_infos_append, hp,
          List.cons_append]
      have hw : waits_of (ch :: chs) last
          = (ch.map DBusMessage.got_info :: waits_of chs last : List (List (DBusMessage Raw))) := by
        simp [waits_of]
      rw [hP, hw]
      have e1 := drain_next_file_chunk f ch w
        (fuel + 1 + (pushed_infos f (chs.flatten ++ last)).length + rest.length)
        (waits_of chs last) a rest hs hreq hl hd hp
      have e2 := drain_next_file_pops f rest { w with infos := rest }
        (fuel + 1 + (pushed_infos f (chs.flatten ++ last)).length) (waits_of chs last) hs rfl
      have e3 := ih { w with infos := [] } hs hreq rfl hd hprog2
      have hlen : fuel + 1 + (a :: (rest ++ pushed_infos f (chs.flatten ++ last))).length
          = fuel + 1 + (pushed_infos f (chs.flatten ++ last)).length + rest.length + 1 := by
        simp only [List.length_cons, List.length_append]
        omega
      rw [hlen, e1, e2, e3]
      simp [add_metadata_eq_with]

/-- Successive requests without cancellable on an enumerator that is done. -/
theorem run_requests_done {Raw : Type} (f : Raw → Option GFileInfo) (sizes : List Int)
    (w : World) (hpos : ∀ n ∈ sizes, 0 < n) (hd : w.done = true)
    (hs : w.sync_connection = none) :
    ∃ (w2 : World) (rs : List GSimpleAsyncResult),
      run f w (sizes.map (fun n => Event.next_files_async n none)) = some w2 ∧
      w2.idle = w.idle ++ rs ∧ rs.length = sizes.length ∧
      (∀ r ∈ rs, r.cancellable = none ∧ r.error = none) ∧
      (rs.map (fun r => r.op_res)).flatten
        = (w.infos.take sizes.sum.toNat).map (add_metadata w.toGDaemonFileEnumerator) ∧
      w2.infos = w.infos.drop sizes.sum.toNat ∧
      w2.cancelled = w.cancelled := by
  induction sizes generalizing w with
  | nil => exact ⟨w, [], rfl, by simp, rfl, by simp, by simp, by simp, rfl⟩
  | cons n ns ih =>
    have hn : 0 < n := hpos n (List.mem_cons_self _ _)
    have hns : ∀ m ∈ ns, 0 < m := fun m hm => hpos m (List.mem_cons_of_mem _ hm)
    have hsum : 0 ≤ ns.sum := List.sum_nonneg (fun m hm => (hns m hm).le)
    have e0 : step f w (Event.next_files_async n none)
        = trigger_async_done { w with
            cancelled_tag := 0
            timeout_tag := 0
            async_requested_files := n
            async_res := some { id := w.next_tag, cancellable := none, error := none, op_res := [] }
            next_tag := w.next_tag + 1 } true := by
      simp [step, g_daemon_file_enumerator_next_files_async, hs, hd]
    have e1 := e0.trans (trigger_async_done_ok_eq _ _ hn rfl)
    obtain ⟨w2, rs, k1, k2, k3, k4, k5, k6, k7⟩ := ih _ hns
      (show ({ w with
            infos := w.infos.drop n.toNat
            idle := w.idle ++ [{ id := w.next_tag, cancellable := none, error := none, op_res := (w.infos.take n.toNat).map (add_metadata w.toGDaemonFileEnumerator) }]
            cancelled_tag := 0
            timeout_tag := 0
            async_requested_files := 0
            async_res := none
            next_tag := w.next_tag + 1 } : World).done = true from hd) hs
    have hto : (n + ns.sum).toNat = n.toNat + ns.sum.toNat := Int.toNat_add hn.le hsum
    refine ⟨w2, { id := w.next_tag, cancellable := none, error := none, op_res := (w.infos.take n.toNat).map (add_metadata w.toGDaemonFileEnumerator) } :: rs, ?_, ?_, ?_, ?_, ?_, ?_, ?_⟩
    · simp only [List.map_cons, run, e1]
      simpa [add_metadata_eq_with] using k1
    · simpa using k2
    · simp [k3]
    · intro r hr
      rcases List.mem_cons.mp hr with h | h
      · subst h
        exact ⟨rfl, rfl⟩
      · exact k4 r h
    · simp only [List.map_cons, List.flatten_cons, List.sum_cons, hto, k5]
      simp only [add_metadata_eq_with, List.take_add, List.map_append]
    · simp only [List.sum_cons, hto, k6]
      simp [List.drop_drop, add_comm]
    · simpa using k7

theorem finished_files_of_no_cancellable (w : World) (rs : List GSimpleAsyncResult)
    (h : ∀ r ∈ rs, r.cancellable = none) :
    finished_files w rs = (rs.map (fun r => r.op_res)).flatten := by
  induction rs with
  | nil => rfl
  | cons r rs ih =>
    have hr := h r (List.mem_cons_self _ _)
    have ih2 := ih (fun x hx => h x (List.mem_cons_of_mem _ hx))
    simp only [finished_files, List.map_cons, List.flatten_cons] at ih2 ⊢
    rw [ih2]
    simp [g_daemon_file_enumerator_next_files_finish, hr]

/-! ## Lemmas on conservation -/

theorem trigger_async_done_conserved (w w1 : World) (ok : Bool) (P : List GFileInfo)
    (hw : Conserved w P) (h : trigger_async_done w ok = some w1) :
    Conserved w1 P ∧ w1.metadata_tree = w.metadata_tree ∧
      w1.container_path = w.container_path ∧ w1.matcher = w.matcher := by
  obtain ⟨i1, i2, i3, i4, i5⟩ := hw
  unfold Conserved
  simp only [add_metadata_eq_with] at i5 ⊢
  unfold trigger_async_done at h
  cases ok with
  | false =>
    simp only [Bool.false_eq_true, if_false] at h
    cases h
    refine ⟨⟨fun _ => rfl, le_refl _, by simp, ?_, ?_⟩, rfl, rfl, rfl⟩
    · intro r hr
      simp only [List.mem_append, Option.mem_toList] at hr
      rcases hr with hr | hr
      · exact i4 r hr
      · exact (i3 r hr).2
    · cases hres : w.async_res with
      | none => simpa [hres] using i5
      | some r => simpa [hres, (i3 r hres).1] using i5
  | true =>
    simp only [if_true] at h
    split at h
    · cases h
    · rename_i hcrash
      cases h
      refine ⟨⟨fun _ => rfl, le_refl _, by simp, ?_, ?_⟩, rfl, rfl, rfl⟩
      · intro r hr
        simp only [List.mem_append, Option.mem_toList] at hr
        rcases hr with hr | hr
        · exact i4 r hr
        · cases hres : w.async_res with
          | none => simp [hres] at hr
          | some r0 =>
            simp only [hres, Option.map_some', Option.mem_def, Option.some.injEq] at hr
            subst hr
            exact (i3 r0 hres).2
      · have hneg : ¬ w.async_requested_files < 0 := not_lt.mpr i2
        simp only [hneg, if_false]
        cases hres : w.async_res with
        | none =>
          have hz := i1 hres
          have hnil : w.infos = [] := by
            by_contra hne
            exact hcrash ⟨hz, hne⟩
          simpa [hres, hnil] using i5
        | some r =>
          simp only [hres, Option.map_some', Option.toList_some, List.map_append, List.map_cons,
            List.map_nil, List.flatten_append, List.flatten_cons, List.flatten_nil,
            List.append_nil, List.append_assoc, add_metadata_eq_with]
          rw [← List.map_append, List.take_append_drop]
          exact i5

theorem emit_cancelled_conserved (c : Nat) (tags : List Nat) (w w1 : World)
    (P : List GFileInfo) (hw : Conserved w P) (h : emit_cancelled c tags w = some w1) :
    Conserved w1 P ∧ w1.metadata_tree = w.metadata_tree ∧
      w1.container_path = w.container_path ∧ w1.matcher = w.matcher := by
  induction tags generalizing w with
  | nil =>
    simp only [emit_cancelled] at h
    cases h
    exact ⟨hw, rfl, rfl, rfl⟩
  | cons tag tags ih =>
    simp only [emit_cancelled] at h
    split at h
    · cases hc : async_cancelled w with
      | none => simp [hc] at h
      | some w2 =>
        simp only [hc] at h
        have hw2 : Conserved { w with async_res := w.async_res.map (fun r =>
            { r with error := some ⟨GIOErrorCode.CANCELLED, "Operation was cancelled"⟩ }) } P := by
          obtain ⟨i1, i2, i3, i4, i5⟩ := hw
          refine ⟨?_, i2, ?_, i4, ?_⟩
          · intro hn
            apply i1
            cases hres : w.async_res with
            | none => rfl
            | some r => simp [hres] at hn
          · intro r hr
            cases hres : w.async_res with
            | none => simp [hres] at hr
            | some r0 =>
              simp only [hres, Option.map_some', Option.some.injEq] at hr
              subst hr
              exact i3 r0 hres
          · simpa [add_metadata_eq_with] using i5
        obtain ⟨k1, k2, k3, k4⟩ := trigger_async_done_conserved { w with async_res := w.async_res.map (fun r =>
            { r with error := some ⟨GIOErrorCode.CANCELLED, "Operation was cancelled"⟩ }) } w2 false P hw2 hc
        obtain ⟨g1, g2, g3, g4⟩ := ih w2 k1 h
        exact ⟨g1, g2.trans k2, g3.trans k3, g4.trans k4⟩
    · exact ih w hw h

theorem step_conserved {Raw : Type} (f : Raw → Option GFileInfo) (w w1 : World)
    (e : Event Raw) (P : List GFileInfo) (he : e.plain_request = true)
    (hw : Conserved w P) (h : step f w e = some w1) :
    Conserved w1 (P ++ pushed_infos f (pushed_by [e])) ∧ w1.metadata_tree = w.metadata_tree ∧
      w1.container_path = w.container_path ∧ w1.matcher = w.matcher := by
  cases e with
  | got_info arg_infos =>
    have e1 : (got_info_loop f arg_infos []).reverse = arg_infos.filterMap f := by
      simp [got_info_loop_eq]
    have hw2 : Conserved { w with infos := w.infos ++ arg_infos.filterMap f }
        (P ++ pushed_infos f (pushed_by [Event.got_info arg_infos])) := by
      obtain ⟨i1, i2, i3, i4, i5⟩ := hw
      refine ⟨i1, i2, i3, i4, ?_⟩
      simp only [add_metadata_eq_with] at i5 ⊢
      simp only [pushed_by, pushed_infos, List.map_cons, List.map_nil, List.flatten_cons,
        List.flatten_nil, List.append_nil, List.map_append, ← List.append_assoc, i5]
    simp only [step, handle_got_info, e1] at h
    split at h
    · exact trigger_async_done_conserved { w with infos := w.infos ++ arg_infos.filterMap f }
        w1 true _ hw2 h
    · cases h
      exact ⟨hw2, rfl, rfl, rfl⟩
  | done =>
    have hw2 : Conserved { w with done := true } (P ++ pushed_infos f (pushed_by [Event.done])) := by
      obtain ⟨i1, i2, i3, i4, i5⟩ := hw
      refine ⟨i1, i2, i3, i4, ?_⟩
      simpa [add_metadata_eq_with, pushed_by, pushed_infos] using i5
    simp only [step, handle_done] at h
    split at h
    · exact trigger_async_done_conserved { w with done := true } w1 true _ hw2 h
    · cases h
      exact ⟨hw2, rfl, rfl, rfl⟩
  | next_files_async num_files cancellable =>
    simp only [Event.plain_request, Bool.and_eq_true, decide_eq_true_eq,
      Option.isNone_iff_eq_none] at he
    obtain ⟨hn, hc⟩ := he
    subst hc
    obtain ⟨i1, i2, i3, i4, i5⟩ := hw
    simp only [step, g_daemon_file_enumerator_next_files_async] at h
    split at h
    · cases h
      refine ⟨⟨i1, i2, i3, ?_, ?_⟩, rfl, rfl, rfl⟩
      · intro r hr
        simp only [List.mem_append, List.mem_singleton] at hr
        rcases hr with hr | hr
        · exact i4 r hr
        · subst hr
          rfl
      · simpa [add_metadata_eq_with, pushed_by, pushed_infos, reported_error] using i5
    · have hw2 : Conserved { w with
          cancelled_tag := 0
          timeout_tag := 0
          async_requested_files := num_files
          async_res := some { id := w.next_tag, cancellable := none, error := none, op_res := [] }
          next_tag := w.next_tag + 1 } (P ++ pushed_infos f (pushed_by [Event.next_files_async num_files none])) := by
        refine ⟨by simp, hn.le, ?_, i4, ?_⟩
        · intro r hr
          simp only [Option.some.injEq] at hr
          subst hr
          exact ⟨rfl, rfl⟩
        · simpa [add_metadata_eq_with, pushed_by, pushed_infos] using i5
      split at h
      · exact trigger_async_done_conserved { w with
          cancelled_tag := 0
          timeout_tag := 0
          async_requested_files := num_files
          async_res := some { id := w.next_tag, cancellable := none, error := none, op_res := [] }
          next_tag := w.next_tag + 1 } w1 true _ hw2 h
      · cases h
        obtain ⟨j1, j2, j3, j4, j5⟩ := hw2
        exact ⟨⟨j1, j2, j3, j4, j5⟩, rfl, rfl, rfl⟩
  | timeout tag =>
    have hP : P ++ pushed_infos f (pushed_by [Event.timeout tag]) = P := by
      simp [pushed_by, pushed_infos]
    rw [hP]
    simp only [step, timeout_fires] at h
    split at h
    · cases ht : async_timeout w with
      | none => simp [ht] at h
      | some w2 =>
        simp only [ht] at h
        cases h
        obtain ⟨⟨j1, j2, j3, j4, j5⟩, k2, k3, k4⟩ := trigger_async_done_conserved w w2 true P hw ht
        exact ⟨⟨j1, j2, j3, j4, j5⟩, k2, k3, k4⟩
    · cases h
      exact ⟨hw, rfl, rfl, rfl⟩
  | cancel c =>
    have hP : P ++ pushed_infos f (pushed_by [Event.cancel c]) = P := by
      simp [pushed_by, pushed_infos]
    rw [hP]
    simp only [step, g_cancellable_cancel] at h
    split at h
    · cases h
      exact ⟨hw, rfl, rfl, rfl⟩
    · obtain ⟨i1, i2, i3, i4, i5⟩ := hw
      exact emit_cancelled_conserved _ _ { w with cancelled := c :: w.cancelled } w1 P
        ⟨i1, i2, i3, i4, i5⟩ h

theorem run_conserved {Raw : Type} (f : Raw → Option GFileInfo) (es : List (Event Raw))
    (w w1 : World) (P : List GFileInfo) (he : es.all Event.plain_request = true)
    (hw : Conserved w P) (h : run f w es = some w1) :
    Conserved w1 (P ++ pushed_infos f (pushed_by es)) ∧ w1.metadata_tree = w.metadata_tree ∧
      w1.container_path = w.container_path ∧ w1.matcher = w.matcher := by
  induction es generalizing w P with
  | nil =>
    simp only [run] at h
    cases h
    exact ⟨by simpa [pushed_by, pushed_infos] using hw, rfl, rfl, rfl⟩
  | cons e es ih =>
    simp only [List.all_cons, Bool.and_eq_true] at he
    simp only [run] at h
    cases hs : step f w e with
    | none => simp [hs] at h
    | some w2 =>
      simp only [hs] at h
      obtain ⟨k1, k2, k3, k4⟩ := step_conserved f w w2 e P he.1 hw hs
      obtain ⟨g1, g2, g3, g4⟩ := ih w2 _ he.2 k1 h
      refine ⟨?_, g2.trans k2, g3.trans k3, g4.trans k4⟩
      rw [pushed_by_cons, pushed_infos_append, ← List.append_assoc]
      exact g1

theorem conserved_fresh (daemon : GDaemonFileEnumerator)
    (h1 : daemon.async_requested_files = 0) (h2 : daemon.async_res = none)
    (h3 : daemon.infos = []) : Conserved (World.fresh daemon) [] := by
  refine ⟨fun _ => h1, h1.ge, ?_, ?_, ?_⟩
  · intro r hr
    have : (World.fresh daemon).async_res = none := h2
    rw [this] at hr
    cases hr
  · intro r hr
    simp [World.fresh] at hr
  · simp [World.fresh, h3]

/-! ## Lemmas on the request invariant -/

theorem emit_cancelled_pending_unsatisfiable (c : Nat) (tags : List Nat) (w w1 : World)
    (hw : pending_unsatisfiable w) (h : emit_cancelled c tags w = some w1) :
    pending_unsatisfiable w1 := by
  induction tags generalizing w with
  | nil =>
    simp only [emit_cancelled] at h
    cases h
    exact hw
  | cons tag tags ih =>
    simp only [emit_cancelled] at h
    split at h
    · cases hc : async_cancelled w with
      | none => simp [hc] at h
      | some w2 =>
        simp only [hc] at h
        refine ih w2 ?_ h
        intro hpos
        have := trigger_async_done_clears _ _ _ (show trigger_async_done _ false = some w2 from hc)
        omega
    · exact ih w hw h

theorem step_pending_unsatisfiable {Raw : Type} (f : Raw → Option GFileInfo) (w w1 : World)
    (e : Event Raw) (he : e.positive_count = true) (hw : pending_unsatisfiable w)
    (h : step f w e = some w1) : pending_unsatisfiable w1 := by
  have clear : ∀ (w0 : World) (ok : Bool), trigger_async_done w0 ok = some w1 →
      pending_unsatisfiable w1 := by
    intro w0 ok h0 hpos
    have := trigger_async_done_clears _ _ _ h0
    omega
  cases e with
  | got_info arg_infos =>
    simp only [step, handle_got_info] at h
    split at h
    · exact clear _ _ h
    · rename_i hnot
      cases h
      intro hpos
      have hpos0 : 0 < w.async_requested_files := hpos
      refine ⟨(hw hpos0).1, ?_⟩
      by_contra hlt
      exact hnot ⟨hpos0, not_lt.mp hlt⟩
  | done =>
    simp only [step, handle_done] at h
    split at h
    · exact clear _ _ h
    · rename_i hnot
      cases h
      intro hpos
      exact absurd hpos hnot
  | next_files_async num_files cancellable =>
    have hn : 0 < num_files := by simpa [Event.positive_count] using he
    simp only [step, g_daemon_file_enumerator_next_files_async] at h
    split at h
    · cases h
      exact hw
    · split at h
      · exact clear _ _ h
      · rename_i hnot
        have hd : w.done = false := by
          cases hdn : w.done with
          | false => rfl
          | true => exact absurd (Or.inl hdn) hnot
        have hl : (w.infos.length : Int) < num_files := by
          by_contra hlt
          exact hnot (Or.inr (by simp [enough_infos, hn.le, not_lt.mp hlt]))
        cases cancellable with
        | none =>
          cases h
          intro _
          exact ⟨hd, hl⟩
        | some c =>
          simp only at h
          split at h
          · cases h
          · cases h
            intro _
            exact ⟨hd, hl⟩
  | timeout tag =>
    simp only [step, timeout_fires] at h
    split at h
    · cases ht : async_timeout w with
      | none => simp [ht] at h
      | some w2 =>
        simp only [ht] at h
        cases h
        intro hpos
        have := trigger_async_done_clears _ _ _ (show trigger_async_done _ true = some w2 from ht)
        have hpos2 : 0 < w2.async_requested_files := hpos
        omega
    · cases h
      exact hw
  | cancel c =>
    simp only [step, g_cancellable_cancel] at h
    split at h
    · cases h
      exact hw
    · exact emit_cancelled_pending_unsatisfiable _ _
        { w with cancelled := c :: w.cancelled } w1 hw h

theorem run_pending_unsatisfiable {Raw : Type} (f : Raw → Option GFileInfo)
    (es : List (Event Raw)) (w w1 : World)
    (he : es.all Event.positive_count = true) (hw : pending_unsatisfiable w)
    (h : run f w es = some w1) : pending_unsatisfiable w1 := by
  induction es generalizing w with
  | nil =>
    simp only [run] at h
    cases h
    exact hw
  | cons e es ih =>
    simp only [List.all_cons, Bool.and_eq_true] at he
    simp only [run] at h
    cases hs : step f w e with
    | none => simp [hs] at h
    | some w2 =>
      simp only [hs] at h
      exact ih w2 he.2 (step_pending_unsatisfiable f w w2 e he.1 hw hs) h

/-! ## Lemmas on the life of a request -/

theorem step_of_completed {Raw : Type} (f : Raw → Option GFileInfo) (w : World)
    (I : List GSimpleAsyncResult) (id : Nat) (c : Option Nat) (e : Event Raw)
    (he : e.is_trigger = true) (hw : CompletedOnce w I id c) :
    ∃ w1, step f w e = some w1 ∧ CompletedOnce w1 I id c := by
  obtain ⟨h1, h2, h3, h4, res, h5, h6, h7, h8⟩ := hw
  cases e with
  | got_info arg_infos =>
    have e1 : step f w (Event.got_info arg_infos)
        = some { w with infos := w.infos ++ (got_info_loop f arg_infos []).reverse } := by
      simp [step, handle_got_info, h1]
    exact ⟨_, e1, h1, h2, h3, h4, res, h5, h6, h7, h8⟩
  | done =>
    have e1 : step f w Event.done = some { w with done := true } := by
      simp [step, handle_done, h1]
    exact ⟨_, e1, h1, h2, h3, h4, res, h5, h6, h7, h8⟩
  | next_files_async n c => simp [Event.is_trigger] at he
  | timeout tag =>
    have e1 : step f w (Event.timeout tag) = some w := by
      simp [step, timeout_fires, h3]
    exact ⟨_, e1, h1, h2, h3, h4, res, h5, h6, h7, h8⟩
  | cancel tok =>
    by_cases htok : tok ∈ w.cancelled
    · have e1 : step f w (Event.cancel tok) = some w := by
        simp [step, g_cancellable_cancel, htok]
      exact ⟨_, e1, h1, h2, h3, h4, res, h5, h6, h7, h8⟩
    · have e1 : step f w (Event.cancel tok) = some { w with cancelled := tok :: w.cancelled } := by
        simp [step, g_cancellable_cancel, htok, h4, emit_cancelled]
      refine ⟨_, e1, h1, h2, h3, h4, res, h5, h6, h7, ?_⟩
      rcases h8 with h8 | ⟨h8, h9, t, h10, h11⟩
      · exact Or.inl h8
      · exact Or.inr ⟨h8, h9, t, h10, List.mem_cons_of_mem _ h11⟩

theorem run_of_completed {Raw : Type} (f : Raw → Option GFileInfo) (es : List (Event Raw))
    (w : World) (I : List GSimpleAsyncResult) (id : Nat) (c : Option Nat)
    (he : es.all Event.is_trigger = true) (hw : CompletedOnce w I id c) :
    ∃ w1, run f w es = some w1 ∧ CompletedOnce w1 I id c := by
  induction es generalizing w with
  | nil => exact ⟨w, rfl, hw⟩
  | cons e es ih =>
    simp only [List.all_cons, Bool.and_eq_true] at he
    obtain ⟨w1, h1, h2⟩ := step_of_completed f w I id c e he.1 hw
    obtain ⟨w2, h3, h4⟩ := ih w1 he.2 h2
    exact ⟨w2, by simp [run, h1, h3], h4⟩

theorem handlers_of_outstanding_erased (w : World) (c : Option Nat) :
    (match c with
      | none => w.cancelled_tag = 0 ∧ w.handlers = []
      | some tok => w.cancelled_tag ≠ 0 ∧ w.handlers = [(tok, w.cancelled_tag)] ∧
          tok ∉ w.cancelled) →
    (if w.cancelled_tag ≠ 0 then
        match c with
        | some tok => w.handlers.erase (tok, w.cancelled_tag)
        | none => w.handlers
      else w.handlers) = [] := by
  intro h
  cases c with
  | none => simp [h.2]
  | some tok => simp [h.1, h.2.1]

theorem step_of_outstanding {Raw : Type} (f : Raw → Option GFileInfo) (w : World)
    (I : List GSimpleAsyncResult) (id : Nat) (N : Int) (c : Option Nat) (t : Nat)
    (e : Event Raw) (hN : 0 < N) (he : e.is_trigger = true) (hw : Outstanding w I id N c t)
    (hlen : (w.infos.length : Int) < N) :
    ∃ w1, step f w e = some w1 ∧
      ((CompletedOnce w1 I id c ∧
          (e.completes c t = true ∨
            N ≤ ((w.infos ++ pushed_infos f (pushed_by [e])).length : Int))) ∨
        (Outstanding w1 I id N c t ∧ e.completes c t = false ∧
          w1.infos = w.infos ++ pushed_infos f (pushed_by [e]) ∧
          (w1.infos.length : Int) < N)) := by
  obtain ⟨h1, h2, h3, h4, h5, h6, h7⟩ := hw
  have hpos : 0 < w.async_requested_files := h1 ▸ hN
  have hpe : ∀ arg_infos : List Raw, pushed_infos f (pushed_by [Event.got_info arg_infos])
      = (got_info_loop f arg_infos []).reverse := by
    intro arg_infos
    simp [pushed_by, pushed_infos, got_info_loop_eq]
  have hsrc : (if w.timeout_tag ≠ 0 then w.sources.erase w.timeout_tag else w.sources) = [] := by
    simp [h3, h4, h5]
  have hhand := handlers_of_outstanding_erased w c h6
  -- a completion with ok = TRUE
  have ok_done : ∀ w0 : World, w0.async_requested_files = w.async_requested_files →
      w0.async_res = w.async_res → w0.timeout_tag = w.timeout_tag → w0.sources = w.sources →
      w0.cancelled_tag = w.cancelled_tag → w0.handlers = w.handlers → w0.idle = w.idle →
      ∃ w1, trigger_async_done w0 true = some w1 ∧ CompletedOnce w1 I id c ∧ w1.sources = [] := by
    intro w0 g1 g2 g3 g4 g5 g6 g7
    have k := trigger_async_done_ok_eq w0 _ (g1 ▸ hpos) (g2.trans h2)
    refine ⟨_, k, ⟨rfl, rfl, ?_, ?_,
      { id := id, cancellable := c, error := none, op_res := (w0.infos.take w0.async_requested_files.toNat).map (add_metadata w0.toGDaemonFileEnumerator) },
      ?_, rfl, rfl, Or.inl rfl⟩, ?_⟩
    · simpa [g3, g4] using hsrc
    · simpa [g5, g6] using hhand
    · simp [g7, h7]
    · simpa [g3, g4] using hsrc
  cases e with
  | next_files_async n c => simp [Event.is_trigger] at he
  | got_info arg_infos =>
    by_cases hth : w.async_requested_files ≤ ((w.infos ++ (got_info_loop f arg_infos []).reverse).length : Int)
    · obtain ⟨w1, k1, k2, _⟩ := ok_done { w with infos := w.infos ++ (got_info_loop f arg_infos []).reverse }
        rfl rfl rfl rfl rfl rfl rfl
      refine ⟨w1, ?_, Or.inl ⟨k2, Or.inr (by rw [hpe, ← h1]; exact hth)⟩⟩
      simp only [step, handle_got_info]
      rw [if_pos ⟨hpos, hth⟩]
      exact k1
    · have e1 : step f w (Event.got_info arg_infos)
          = some { w with infos := w.infos ++ (got_info_loop f arg_infos []).reverse } := by
        simp only [step, handle_got_info]
        rw [if_neg (fun h => hth h.2)]
      exact ⟨_, e1, Or.inr ⟨⟨h1, h2, h3, h4, h5, h6, h7⟩, rfl, by rw [hpe],
        by rw [← h1]; exact not_le.mp hth⟩⟩
  | done =>
    obtain ⟨w1, k1, k2, _⟩ := ok_done { w with done := true } rfl rfl rfl rfl rfl rfl rfl
    refine ⟨w1, ?_, Or.inl ⟨k2, Or.inl rfl⟩⟩
    simp only [step, handle_done]
    rw [if_pos hpos]
    exact k1
  | timeout tag =>
    by_cases htag : tag = t
    · obtain ⟨w1, k1, k2, k3⟩ := ok_done w rfl rfl rfl rfl rfl rfl rfl
      have e1 : step f w (Event.timeout tag) = some { w1 with sources := w1.sources.erase tag } := by
        simp [step, timeout_fires, h5, htag, async_timeout, k1]
      refine ⟨_, e1, Or.inl ⟨?_, Or.inl (by simp [Event.completes, htag])⟩⟩
      obtain ⟨g1, g2, g3, g4, g5⟩ := k2
      exact ⟨g1, g2, by simp [k3], g4, g5⟩
    · have e1 : step f w (Event.timeout tag) = some w := by
        simp [step, timeout_fires, h5, htag]
      exact ⟨_, e1, Or.inr ⟨⟨h1, h2, h3, h4, h5, h6, h7⟩, by simp [Event.completes, htag],
        by simp [pushed_by, pushed_infos], hlen⟩⟩
  | cancel tok =>
    by_cases htok : tok ∈ w.cancelled
    · have e1 : step f w (Event.cancel tok) = some w := by
        simp [step, g_cancellable_cancel, htok]
      refine ⟨_, e1, Or.inr ⟨⟨h1, h2, h3, h4, h5, h6, h7⟩, ?_,
        by simp [pushed_by, pushed_infos], hlen⟩⟩
      cases c with
      | none => simp [Event.completes]
      | some tk =>
        have : tk ≠ tok := fun h => h6.2.2 (h ▸ htok)
        simp [Event.completes, this]
    · cases c with
      | none =>
        have e1 : step f w (Event.cancel tok) = some { w with cancelled := tok :: w.cancelled } := by
          simp [step, g_cancellable_cancel, htok, h6.2, emit_cancelled]
        exact ⟨_, e1, Or.inr ⟨⟨h1, h2, h3, h4, h5, h6, h7⟩, by simp [Event.completes],
          by simp [pushed_by, pushed_infos], hlen⟩⟩
      | some tk =>
        by_cases heq : tk = tok
        · subst heq
          have e1 : step f w (Event.cancel tk) = some { w with
              cancelled := tk :: w.cancelled
              idle := w.idle ++ [{ id := id, cancellable := some tk, op_res := [], error := some ⟨GIOErrorCode.CANCELLED, "Operation was cancelled"⟩ }]
              cancelled_tag := 0
              timeout_tag := 0
              async_requested_files := 0
              async_res := none
              handlers := []
              sources := [] } := by
            simp [step, g_cancellable_cancel, htok, h6.2.1, emit_cancelled, async_cancelled, async_cancelled_locked,
              async_cancelled_set_error,
              trigger_async_done, h2, h6.1, h3, h4, h5]
          refine ⟨_, e1, Or.inl ⟨⟨rfl, rfl, rfl, rfl,
            { id := id, cancellable := some tk, op_res := [], error := some ⟨GIOErrorCode.CANCELLED, "Operation was cancelled"⟩ },
            ?_, rfl, rfl, Or.inr ⟨rfl, rfl, tk, rfl, ?_⟩⟩, Or.inl (by simp [Event.completes])⟩⟩
          · simp [h7]
          · simp
        · have e1 : step f w (Event.cancel tok) = some { w with cancelled := tok :: w.cancelled } := by
            simp [step, g_cancellable_cancel, htok, h6.2.1, emit_cancelled, heq]
          refine ⟨_, e1, Or.inr ⟨⟨h1, h2, h3, h4, h5, ⟨h6.1, h6.2.1, ?_⟩, h7⟩, ?_,
            by simp [pushed_by, pushed_infos], hlen⟩⟩
          · simp only [List.mem_cons, not_or]
            exact ⟨heq, h6.2.2⟩
          · simp [Event.completes, heq]

theorem run_of_outstanding {Raw : Type} (f : Raw → Option GFileInfo) (es : List (Event Raw))
    (w : World) (I : List GSimpleAsyncResult) (id : Nat) (N : Int) (c : Option Nat) (t : Nat)
    (hN : 0 < N) (he : es.all Event.is_trigger = true) (hw : Outstanding w I id N c t)
    (hlen : (w.infos.length : Int) < N) :
    ∃ w1, run f w es = some w1 ∧
      ((CompletedOnce w1 I id c ∧
          (es.any (Event.completes c t) = true ∨
            N ≤ ((w.infos ++ pushed_infos f (pushed_by es)).length : Int))) ∨
        (Outstanding w1 I id N c t ∧ es.any (Event.completes c t) = false ∧
          w1.infos = w.infos ++ pushed_infos f (pushed_by es) ∧
          (w1.infos.length : Int) < N)) := by
  induction es generalizing w with
  | nil => exact ⟨w, rfl, Or.inr ⟨hw, rfl, by simp [pushed_by, pushed_infos], hlen⟩⟩
  | cons e es ih =>
    simp only [List.all_cons, Bool.and_eq_true] at he
    have hsplit : pushed_infos f (pushed_by (e :: es))
        = pushed_infos f (pushed_by [e]) ++ pushed_infos f (pushed_by es) := by
      rw [pushed_by_cons, pushed_infos_append]
    obtain ⟨w1, h1, h2⟩ := step_of_outstanding f w I id N c t e hN he.1 hw hlen
    rcases h2 with ⟨h2, hr⟩ | ⟨h2, h3, h4, h5⟩
    · obtain ⟨w2, h6, h7⟩ := run_of_completed f es w1 I id c he.2 h2
      refine ⟨w2, by simp [run, h1, h6], Or.inl ⟨h7, ?_⟩⟩
      rcases hr with hr | hr
      · exact Or.inl (by simp [List.any_cons, hr])
      · refine Or.inr (le_trans hr ?_)
        rw [hsplit]
        simp only [List.length_append, Nat.cast_add]
        omega
    · obtain ⟨w2, h6, h7⟩ := ih w1 he.2 h2 h5
      refine ⟨w2, by simp [run, h1, h6], ?_⟩
      rcases h7 with ⟨h7, hr⟩ | ⟨h7, h8, h9, h10⟩
      · refine Or.inl ⟨h7, ?_⟩
        rcases hr with hr | hr
        · exact Or.inl (by simp [List.any_cons, hr])
        · refine Or.inr ?_
          rw [hsplit, ← List.append_assoc, ← h4]
          exact hr
      · refine Or.inr ⟨h7, by simp [List.any_cons, h3, h8], ?_, h10⟩
        rw [h9, h4, hsplit, List.append_assoc]

theorem outstanding_of_issue (w w1 : World) (N : Int) (c : Option Nat)
    (hmode : w.sync_connection = none) (hs : w.sources = []) (hh : w.handlers = [])
    (hissue : g_daemon_file_enumerator_next_files_async w N c = some w1)
    (hout : 0 < w1.async_requested_files) :
    Outstanding w1 w.idle w.next_tag N c (w.next_tag + 1) := by
  simp only [g_daemon_file_enumerator_next_files_async, hmode, ne_eq, not_true_eq_false,
    if_false] at hissue
  split at hissue
  · have := trigger_async_done_clears _ _ _ hissue
    omega
  · cases c with
    | none =>
      cases hissue
      exact ⟨rfl, rfl, rfl, by omega, by simp [hs], ⟨rfl, hh⟩, rfl⟩
    | some tok =>
      simp only at hissue
      split at hissue
      · cases hissue
      · rename_i hnot
        cases hissue
        exact ⟨rfl, rfl, rfl, by omega, by simp [hs], ⟨by simp, by simp [hh], hnot⟩, rfl⟩

theorem buffer_short_of_issue (w w1 : World) (N : Int) (c : Option Nat)
    (hmode : w.sync_connection = none) (hN : 0 < N)
    (hissue : g_daemon_file_enumerator_next_files_async w N c = some w1)
    (hout : 0 < w1.async_requested_files) :
    w1.infos = w.infos ∧ (w1.infos.length : Int) < N := by
  simp only [g_daemon_file_enumerator_next_files_async, hmode, ne_eq, not_true_eq_false,
    if_false] at hissue
  split at hissue
  · have := trigger_async_done_clears _ _ _ hissue
    omega
  · rename_i hnot
    have hl : (w.infos.length : Int) < N := by
      by_contra hlt
      exact hnot (Or.inr (by simp [enough_infos, hN.le, not_lt.mp hlt]))
    cases c with
    | none =>
      cases hissue
      exact ⟨rfl, hl⟩
    | some tok =>
      simp only at hissue
      split at hissue
      · cases hissue
      · cases hissue
        exact ⟨rfl, hl⟩

/-! ## Lemmas on the two threads -/

/-- While no emission is in progress on the other thread, an event on the main
thread is the event of the single-thread model. -/
theorem step_main_eq_step {Raw : Type} (f : Raw → Option GFileInfo) (t : Threads)
    (e : Event Raw) (ht : t.emitting = none) :
    step_main f t e = (step f t.world e).map (fun w => { world := w, emitting := none }) := by
  have hw : g_cancellable_disconnect_waits t = false := by
    simp only [g_cancellable_disconnect_waits, ht]
    split <;> simp_all
  have hm : ∀ w : World, trigger_async_done_main { t with world := w }
      = (trigger_async_done w true).map (fun w => { world := w, emitting := none }) := by
    intro w
    have hw1 : g_cancellable_disconnect_waits { t with world := w } = false := by
      simp only [g_cancellable_disconnect_waits, ht]
      split <;> simp_all
    simp only [trigger_async_done_main, hw1]
    cases trigger_async_done w true <;> simp [ht]
  cases e with
  | got_info arg_infos =>
    simp only [step_main, step, handle_got_info, hm]
    split <;> simp [ht]
  | done =>
    simp only [step_main, step, handle_done, hm]
    split <;> simp [ht]
  | next_files_async n c =>
    simp only [step_main, step]
    cases g_daemon_file_enumerator_next_files_async t.world n c <;> simp [ht]
  | timeout tag =>
    have hm1 := hm t.world
    simp only [step_main, step, timeout_fires, async_timeout]
    split
    · rw [show t = { t with world := t.world } from rfl, hm1]
      cases trigger_async_done t.world true <;> simp
    · cases t
      simp_all
  | cancel c =>
    simp only [step_main, step]
    cases g_cancellable_cancel t.world c <;> simp [ht]

theorem run_threads_handler_locks_none {Raw : Type} (f : Raw → Option GFileInfo) (w : World)
    (k : Nat) :
    run_threads f { world := w, emitting := none }
      (List.replicate k (ThreadEvent.handler_locks : ThreadEvent Raw))
      = some { world := w, emitting := none } := by
  induction k with
  | zero => rfl
  | succ k ih => simp [List.replicate_succ, run_threads, step_threads, handler_locks, ih]

theorem emission_on_one_thread {Raw : Type} (f : Raw → Option GFileInfo) (c : Nat)
    (tags : List Nat) (w : World) (k : Nat) (hk : tags.length ≤ k) :
    run_threads f (emission_continues c tags w)
      (List.replicate k (ThreadEvent.handler_locks : ThreadEvent Raw))
      = (emit_cancelled c tags w).map (fun w1 => { world := w1, emitting := none }) := by
  induction tags generalizing w k with
  | nil => simp [emission_continues, emit_cancelled, run_threads_handler_locks_none]
  | cons tag tags ih =>
    simp only [List.length_cons] at hk
    by_cases hc : (c, tag) ∈ w.handlers
    · obtain ⟨k1, rfl⟩ : ∃ k1, k = k1 + 1 := ⟨k - 1, by omega⟩
      simp only [emission_continues, emit_cancelled, hc, if_true, List.replicate_succ,
        run_threads, step_threads, handler_locks, async_cancelled]
      cases h : async_cancelled_locked (async_cancelled_set_error w) with
      | none => simp
      | some w1 =>
        simp only [Option.map]
        exact ih w1 k1 (by omega)
    · simp only [emission_continues, emit_cancelled, hc, if_false]
      exact ih w k (by omega)

/-- A cancellation whose handlers obtain the infos lock as soon as they ask for
it is the call `g_cancellable_cancel` of the single-thread model. -/
theorem cancel_on_one_thread {Raw : Type} (f : Raw → Option GFileInfo) (w : World) (c k : Nat)
    (hk : (w.handlers.filter (fun h => h.1 = c)).length ≤ k) :
    run_threads f { world := w, emitting := none }
      (ThreadEvent.cancel_begins c :: List.replicate k ThreadEvent.handler_locks)
      = (g_cancellable_cancel w c).map (fun w1 => { world := w1, emitting := none }) := by
  simp only [run_threads, step_threads, cancel_begins, g_cancellable_cancel]
  by_cases hc : c ∈ w.cancelled
  · simp [hc, run_threads_handler_locks_none]
  · simp only [ne_eq, not_true_eq_false, hc, or_self, if_false]
    exact emission_on_one_thread f c _ _ k (by simpa using hk)

theorem trigger_async_done_main_waits (t : Threads) (c : Nat) (tags : List Nat)
    (h1 : t.world.async_res.bind (fun r => r.cancellable) = some c)
    (h2 : t.emitting = some (c, tags)) (h3 : t.world.cancelled_tag ≠ 0) :
    trigger_async_done_main t = none := by
  simp [trigger_async_done_main, g_cancellable_disconnect_waits, h1, h2, h3]

theorem disconnect_waits_of_outstanding {Raw : Type} (f : Raw → Option GFileInfo) (w : World)
    (I : List GSimpleAsyncResult) (id : Nat) (N : Int) (tok t : Nat) (e : Event Raw)
    (hN : 0 < N) (hw : Outstanding w I id N (some tok) t)
    (he : e = Event.done ∨ e = Event.timeout t ∨
      ∃ arg_infos, e = Event.got_info arg_infos ∧
        N ≤ ((w.infos ++ pushed_infos f [arg_infos]).length : Int)) :
    ∃ t1 : Threads,
      step_threads f { world := w, emitting := none } (ThreadEvent.cancel_begins tok) = some t1 ∧
      t1.emitting = some (tok, []) ∧
      t1.world = async_cancelled_set_error { w with cancelled := tok :: w.cancelled } ∧
      t1.world.idle = I ∧
      step_threads f t1 (ThreadEvent.main e) = none := by
  obtain ⟨h1, h2, h3, h4, h5, ⟨h6, h7, h8⟩, h9⟩ := hw
  have e1 : step_threads f { world := w, emitting := none } (ThreadEvent.cancel_begins tok)
      = some { world := async_cancelled_set_error { w with cancelled := tok :: w.cancelled },
               emitting := some (tok, []) } := by
    simp [step_threads, cancel_begins, h8, h7, emission_continues]
  refine ⟨_, e1, rfl, rfl, h9, ?_⟩
  rcases he with rfl | rfl | ⟨b, rfl, hb⟩
  · simp only [step_threads, step_main]
    split
    · exact trigger_async_done_main_waits _ tok []
        (by simp [async_cancelled_set_error, h2]) rfl (by simpa [async_cancelled_set_error] using h6)
    · rename_i hn
      exact absurd (by simpa [async_cancelled_set_error, h1] using hN) hn
  · simp only [step_threads, step_main]
    split
    · rw [trigger_async_done_main_waits _ tok []
        (by simp [async_cancelled_set_error, h2]) rfl (by simpa [async_cancelled_set_error] using h6)]
    · rename_i hn
      exact absurd (by simp [async_cancelled_set_error, h5, h3]) hn
  · simp only [step_threads, step_main]
    split
    · exact trigger_async_done_main_waits _ tok []
        (by simp [async_cancelled_set_error, h2]) rfl (by simpa [async_cancelled_set_error] using h6)
    · rename_i hn
      refine absurd ⟨by simpa [async_cancelled_set_error, h1] using hN, ?_⟩ hn
      simpa [async_cancelled_set_error, h1, pushed_infos, got_info_loop_eq] using hb

/-! ## Lemmas on the base class -/

theorem step_of_no_request {Raw : Type} (f : Raw → Option GFileInfo) (w : World)
    (e : Event Raw) (he : e.is_trigger = true) (hw : NoRequest w) :
    ∃ w1, step f w e = some w1 ∧ NoRequest w1 ∧ w1.idle = w.idle := by
  obtain ⟨h1, h2, h3, h4⟩ := hw
  cases e with
  | got_info arg_infos =>
    have e1 : step f w (Event.got_info arg_infos)
        = some { w with infos := w.infos ++ (got_info_loop f arg_infos []).reverse } := by
      simp [step, handle_got_info, h1]
    exact ⟨_, e1, ⟨h1, h2, h3, h4⟩, rfl⟩
  | done =>
    have e1 : step f w Event.done = some { w with done := true } := by
      simp [step, handle_done, h1]
    exact ⟨_, e1, ⟨h1, h2, h3, h4⟩, rfl⟩
  | next_files_async n c => simp [Event.is_trigger] at he
  | timeout tag =>
    have e1 : step f w (Event.timeout tag) = some w := by
      simp [step, timeout_fires, h3]
    exact ⟨_, e1, ⟨h1, h2, h3, h4⟩, rfl⟩
  | cancel tok =>
    by_cases htok : tok ∈ w.cancelled
    · have e1 : step f w (Event.cancel tok) = some w := by
        simp [step, g_cancellable_cancel, htok]
      exact ⟨_, e1, ⟨h1, h2, h3, h4⟩, rfl⟩
    · have e1 : step f w (Event.cancel tok) = some { w with cancelled := tok :: w.cancelled } := by
        simp [step, g_cancellable_cancel, htok, h4, emit_cancelled]
      exact ⟨_, e1, ⟨h1, h2, h3, h4⟩, rfl⟩

theorem issue_of_no_request (w w1 : World) (N : Int) (c : Option Nat) (hN : 0 < N)
    (hw : NoRequest w)
    (hissue : g_daemon_file_enumerator_next_files_async w N c = some w1) :
    (NoRequest w1 ∧ w1.idle.length = w.idle.length + 1) ∨
    (w1.idle = w.idle ∧
      ∃ (id : Nat) (t : Nat), Outstanding w1 w1.idle id N c t ∧ (w1.infos.length : Int) < N) := by
  by_cases hmode : w.sync_connection = none
  · by_cases hout : 0 < w1.async_requested_files
    · have ho := outstanding_of_issue w w1 N c hmode hw.2.2.1 hw.2.2.2 hissue hout
      have hb := buffer_short_of_issue w w1 N c hmode hN hissue hout
      have hi : w1.idle = w.idle := ho.2.2.2.2.2.2
      refine Or.inr ⟨hi, w.next_tag, w.next_tag + 1, ?_, hb.2⟩
      rw [hi]
      exact ho
    · left
      obtain ⟨h1, h2, h3, h4⟩ := hw
      simp only [g_daemon_file_enumerator_next_files_async, hmode, ne_eq, not_true_eq_false,
        if_false] at hissue
      split at hissue
      · simp only [trigger_async_done, ne_eq, not_true_eq_false, if_false, if_true] at hissue
        rw [if_neg (fun h => by omega)] at hissue
        cases hissue
        exact ⟨⟨rfl, rfl, h3, h4⟩, by simp⟩
      · exfalso
        cases c with
        | none =>
          cases hissue
          exact hout hN
        | some tok =>
          simp only at hissue
          split at hissue
          · cases hissue
          · cases hissue
            exact hout hN
  · left
    simp only [g_daemon_file_enumerator_next_files_async, ne_eq, hmode, not_false_eq_true,
      if_true] at hissue
    cases hissue
    exact ⟨hw, by simp⟩

theorem guarded_of_trigger {Raw : Type} (f : Raw → Option GFileInfo) (e : GFileEnumerator)
    (ev : Event Raw) (w1 : World) (he : ev.is_trigger = true) (hg : Guarded e)
    (hs : step f e.daemon ev = some w1) : Guarded { e with daemon := w1 } := by
  obtain ⟨g1, g2, g3, g4⟩ := hg
  rcases g4 with g4 | ⟨g4, g5, id, N, c, t, hN, ho, hlen⟩
  · obtain ⟨w2, k1, k2, k3⟩ := step_of_no_request f e.daemon ev he g4
    rw [hs] at k1
    cases k1
    exact ⟨by simpa [k3] using g1, by simpa [k3] using g2, by simpa [k3] using g3, Or.inl k2⟩
  · obtain ⟨w2, k1, k2⟩ := step_of_outstanding f e.daemon e.daemon.idle id N c t ev hN he ho hlen
    rw [hs] at k1
    cases k1
    rcases k2 with ⟨k2, _⟩ | ⟨k2, _, _, k5⟩
    · obtain ⟨q1, q2, q3, q4, res, q5, _⟩ := k2
      have hl : w1.idle.length = e.daemon.idle.length + 1 := by simp [q5]
      refine ⟨?_, ?_, ?_, Or.inl ⟨q1, q2, q3, q4⟩⟩
      · show e.delivered ≤ w1.idle.length
        omega
      · show w1.idle.length ≤ e.delivered + 1
        omega
      · intro hp
        change e.pending = false at hp
        rw [g4] at hp
        cases hp
    · have hi : w1.idle = e.daemon.idle := k2.2.2.2.2.2.2
      refine ⟨by simpa [hi] using g1, by simpa [hi] using g2, by simpa [hi] using g3,
        Or.inr ⟨g4, by simpa [hi] using g5, id, N, c, t, hN, ?_, k5⟩⟩
      show Outstanding w1 w1.idle id N c t
      rw [hi]
      exact k2

theorem step_call_guarded {Raw : Type} (f : Raw → Option GFileInfo) (e e1 : GFileEnumerator)
    (c : Call Raw) (hg : Guarded e) (hs : step_call f e c = some e1) : Guarded e1 := by
  have htrig : ∀ ev : Event Raw, ev.is_trigger = true →
      (step f e.daemon ev).map (fun w => { e with daemon := w }) = some e1 → Guarded e1 := by
    intro ev he h
    cases hw : step f e.daemon ev with
    | none => simp [hw] at h
    | some w1 =>
      simp only [hw, Option.map, Option.some.injEq] at h
      subst h
      exact guarded_of_trigger f e ev w1 he hg hw
  cases c with
  | callback =>
    simp only [step_call, Option.some.injEq] at hs
    subst hs
    obtain ⟨g1, g2, g3, g4⟩ := hg
    simp only [next_async_callback_wrapper]
    split
    · rename_i hlt
      rcases g4 with g4 | ⟨_, g5, _⟩
      · exact ⟨by show e.delivered + 1 ≤ e.daemon.idle.length; omega,
          by show e.daemon.idle.length ≤ e.delivered + 1 + 1; omega,
          fun _ => by show e.delivered + 1 = e.daemon.idle.length; omega, Or.inl g4⟩
      · omega
    · exact ⟨g1, g2, g3, g4⟩
  | event ev =>
    cases ev with
    | got_info arg_infos => exact htrig (Event.got_info arg_infos) rfl hs
    | done => exact htrig Event.done rfl hs
    | timeout tag => exact htrig (Event.timeout tag) rfl hs
    | cancel tok => exact htrig (Event.cancel tok) rfl hs
    | next_files_async n c =>
      simp only [step_call, g_file_enumerator_next_files_async] at hs
      split at hs
      · cases hs
        exact hg
      · split at hs
        · cases hs
          exact hg
        · split at hs
          · cases hs
            exact hg
          · rename_i h1 h2 h3
            obtain ⟨g1, g2, g3, g4⟩ := hg
            have hp : e.pending = false := by simpa using h3
            have hd := g3 hp
            have hq : NoRequest e.daemon := by
              rcases g4 with g4 | ⟨g4, _⟩
              · exact g4
              · rw [hp] at g4
                cases g4
            cases hw : g_daemon_file_enumerator_next_files_async e.daemon n c with
            | none => simp [hw] at hs
            | some w1 =>
              simp only [hw, Option.some.injEq] at hs
              subst hs
              have hN : 0 < n := by omega
              rcases issue_of_no_request e.daemon w1 n c hN hq hw with ⟨k1, k2⟩ | ⟨k1, id, t, k2, k3⟩
              · refine ⟨?_, ?_, ?_, Or.inl k1⟩
                · show e.delivered ≤ w1.idle.length
                  omega
                · show w1.idle.length ≤ e.delivered + 1
                  omega
                · intro h
                  cases h
              · refine ⟨?_, ?_, ?_, Or.inr ⟨rfl, ?_, id, n, c, t, hN, k2, k3⟩⟩
                · show e.delivered ≤ w1.idle.length
                  rw [k1]
                  omega
                · show w1.idle.length ≤ e.delivered + 1
                  rw [k1]
                  omega
                · intro h
                  cases h
                · show e.delivered = w1.idle.length
                  rw [k1]
                  exact hd

theorem run_calls_guarded {Raw : Type} (f : Raw → Option GFileInfo) (cs : List (Call Raw))
    (e e1 : GFileEnumerator) (hg : Guarded e) (hs : run_calls f e cs = some e1) : Guarded e1 := by
  induction cs generalizing e with
  | nil =>
    simp only [run_calls, Option.some.injEq] at hs
    subst hs
    exact hg
  | cons c cs ih =>
    simp only [run_calls] at hs
    cases h : step_call f e c with
    | none => simp [h] at hs
    | some e2 =>
      simp only [h] at hs
      exact ih e2 (step_call_guarded f e e2 c hg h) hs

/-! ## C1: a drain yields the pushed entries in push order -/

/-- C1. Let the Info pushes `batches`, followed by Done, reach a newly created
enumerator.

* With a sync connection, however the pushes are spread over the waits of the
  `next_file` calls (every wait but the last receives pushes with at least one
  decodable record, the last one the remaining pushes and Done), repeated
  `next_file` calls until NULL return exactly the decodable records of the
  pushes, batch after batch and in the order inside each batch, each with its
  metadata added; the buffer is then empty and the enumerator done.  Any fuel
  above the number of entries suffices.
* Without sync connection, after the pushes and Done, successive
  `next_files_async` calls of any positive sizes are each completed at once,
  and the lists obtained from `next_files_finish`, in completion order, make up
  the first `sum of sizes` pushed entries in push order; once the sizes add up
  to the number pushed, they make up all of them and the buffer is empty.
* Without sync connection and for every interleaving of these pushes with
  Done, timeouts, cancellations and requests of positive sizes without
  cancellable that returns, the lists obtained from `next_files_finish`, in
  completion order, followed by the entries still buffered, are the pushed
  entries in push order; with an empty buffer they are all of them.

As many entries are retrieved as were pushed, and with no metadata tree bound
they are the pushed values themselves. -/
theorem drain_yields_pushed_in_order {Raw : Type} (f : Raw → Option GFileInfo)
    (path_counter : Int) (file_path : String) (attributes : GFileAttributeMatcher)
    (sync : Bool) (tree : Option MetaTree) (connection : Nat) (batches : List (List Raw)) :
    (∀ (chunks : List (List (List Raw))) (last : List (List Raw)) (fuel : Nat),
      chunks.flatten ++ last = batches → (∀ ch ∈ chunks, pushed_infos f ch ≠ []) →
      (pushed_infos f batches).length < fuel →
      ∃ (got : List GFileInfo) (w2 : World),
        drain_next_file f fuel
          (World.fresh (g_daemon_file_enumerator_set_sync_connection
            (g_daemon_file_enumerator_new path_counter file_path attributes sync tree) connection))
          (waits_of chunks last) = some (got, w2) ∧
        got = (pushed_infos f batches).map (add_metadata
          (g_daemon_file_enumerator_new path_counter file_path attributes sync tree)) ∧
        got.length = (pushed_infos f batches).length ∧
        w2.infos = [] ∧ w2.done = true) ∧
    (∀ sizes : List Int, (∀ n ∈ sizes, 0 < n) →
      ∃ (w1 w2 : World),
        run f (World.fresh (g_daemon_file_enumerator_new path_counter file_path attributes sync tree))
          (batches.map Event.got_info ++ [Event.done]) = some w1 ∧
        w1.infos = pushed_infos f batches ∧ w1.idle = [] ∧
        run f w1 (sizes.map (fun n => Event.next_files_async n none)) = some w2 ∧
        w2.idle.length = sizes.length ∧
        finished_files w2 w2.idle = ((pushed_infos f batches).take sizes.sum.toNat).map
          (add_metadata (g_daemon_file_enumerator_new path_counter file_path attributes sync tree)) ∧
        w2.infos = (pushed_infos f batches).drop sizes.sum.toNat ∧
        (((pushed_infos f batches).length : Int) ≤ sizes.sum →
          finished_files w2 w2.idle = (pushed_infos f batches).map (add_metadata
            (g_daemon_file_enumerator_new path_counter file_path attributes sync tree)) ∧
          (finished_files w2 w2.idle).length = (pushed_infos f batches).length ∧
          w2.infos = [])) ∧
    (∀ (es : List (Event Raw)) (w : World),
      pushed_by es = batches → es.all Event.plain_request = true →
      run f (World.fresh (g_daemon_file_enumerator_new path_counter file_path attributes sync tree))
        es = some w →
      finished_files w w.idle ++ w.infos.map (add_metadata
          (g_daemon_file_enumerator_new path_counter file_path attributes sync tree))
        = (pushed_infos f batches).map (add_metadata
          (g_daemon_file_enumerator_new path_counter file_path attributes sync tree)) ∧
      (w.infos = [] →
        (finished_files w w.idle).length = (pushed_infos f batches).length)) ∧
    ((g_daemon_file_enumerator_new path_counter file_path attributes sync tree).metadata_tree = none →
      (pushed_infos f batches).map (add_metadata
        (g_daemon_file_enumerator_new path_counter file_path attributes sync tree))
        = pushed_infos f batches) := by
  refine ⟨?_, ?_, ?_, ?_⟩
  · intro chunks last fuel hb hprog hfuel
    subst hb
    obtain ⟨fuel0, rfl⟩ : ∃ k, fuel = k + 1 + (pushed_infos f (chunks.flatten ++ last)).length :=
      ⟨fuel - 1 - (pushed_infos f (chunks.flatten ++ last)).length, by omega⟩
    have key := drain_next_file_chunks_empty f chunks last
      (World.fresh (g_daemon_file_enumerator_set_sync_connection
        (g_daemon_file_enumerator_new path_counter file_path attributes sync tree) connection))
      fuel0 (by simp [World.fresh, g_daemon_file_enumerator_set_sync_connection]) rfl rfl rfl hprog
    refine ⟨_, _, key, ?_, by simp, rfl, rfl⟩
    exact congrArg (fun g => (pushed_infos f (chunks.flatten ++ last)).map g)
      (add_metadata_congr _ _ rfl rfl rfl)
  · intro sizes hsizes
    have hw : run f
        (World.fresh (g_daemon_file_enumerator_new path_counter file_path attributes sync tree))
        (batches.map Event.got_info ++ [Event.done])
        = some { World.fresh
            (g_daemon_file_enumerator_new path_counter file_path attributes sync tree) with
            infos := pushed_infos f batches
            done := true } := by
      rw [run_append, run_pushes f batches _ rfl]
      simp [run, step, handle_done, World.fresh, g_daemon_file_enumerator_new]
    obtain ⟨w2, rs, k1, k2, k3, k4, k5, k6, _⟩ := run_requests_done f sizes
      { World.fresh (g_daemon_file_enumerator_new path_counter file_path attributes sync tree) with
          infos := pushed_infos f batches
          done := true } hsizes rfl rfl
    have hidle : w2.idle = rs := by simpa [World.fresh] using k2
    have hfin : finished_files w2 w2.idle = ((pushed_infos f batches).take sizes.sum.toNat).map
        (add_metadata (g_daemon_file_enumerator_new path_counter file_path attributes sync tree)) := by
      rw [hidle, finished_files_of_no_cancellable w2 rs (fun r hr => (k4 r hr).1), k5]
      exact congrArg (fun g => ((pushed_infos f batches).take sizes.sum.toNat).map g)
        (add_metadata_congr _ _ rfl rfl rfl)
    refine ⟨_, w2, hw, rfl, rfl, k1, by rw [hidle, k3], hfin, k6, ?_⟩
    intro hle
    have hge : (pushed_infos f batches).length ≤ sizes.sum.toNat := by omega
    refine ⟨?_, ?_, ?_⟩
    · rw [hfin, List.take_of_length_le hge]
    · rw [hfin, List.take_of_length_le hge, List.length_map]
    · rw [k6]
      exact List.drop_of_length_le hge
  · intro es w hb hes hrun
    subst hb
    obtain ⟨⟨_, _, _, i4, i5⟩, k2, k3, k4⟩ := run_conserved f es _ w [] hes
      (conserved_fresh _ rfl rfl rfl) hrun
    have hm : add_metadata w.toGDaemonFileEnumerator
        = add_metadata (g_daemon_file_enumerator_new path_counter file_path attributes sync tree) :=
      add_metadata_congr _ _ k2 k3 k4
    rw [hm] at i5
    rw [finished_files_of_no_cancellable w w.idle i4]
    simp only [List.nil_append] at i5
    refine ⟨i5, ?_⟩
    intro hnil
    rw [hnil] at i5
    simp only [List.map_nil, List.append_nil] at i5
    rw [i5, List.length_map]
  · intro h
    rw [add_metadata_of_no_tree _ h]
    simp

/-- Two pushes, the first with a record that does not decode, then Done: the
drain by `next_file` with the pushes arriving in two waits, the drain by
requests for 2 and for 5 files, and an interleaving with a request that is
completed by the second push. -/
theorem drain_yields_pushed_in_order_witness :
    (∃ w2 : World,
      drain_next_file sample_get_file_info 4 sample_sync
        [[DBusMessage.got_info ["a", "", "b"]], [DBusMessage.got_info ["c"], DBusMessage.done]]
        = some ([sample_info "a", sample_info "b", sample_info "c"], w2)) ∧
    (∃ w2 : World,
      run sample_get_file_info sample_async
        [Event.got_info ["a", "", "b"], Event.got_info ["c"], Event.done,
          Event.next_files_async 2 none, Event.next_files_async 5 none] = some w2 ∧
      finished_files w2 w2.idle = [sample_info "a", sample_info "b", sample_info "c"]) ∧
    (∃ w : World,
      run sample_get_file_info sample_async
        [Event.got_info ["a", "", "b"], Event.next_files_async 3 none, Event.got_info ["c"],
          Event.done] = some w ∧
      finished_files w w.idle ++ w.infos = [sample_info "a", sample_info "b", sample_info "c"]) := by
  have h := drain_yields_pushed_in_order sample_get_file_info 2 "/dir" sample_matcher true none 7
    [["a", "", "b"], ["c"]]
  have h2 := drain_yields_pushed_in_order sample_get_file_info 1 "/dir" sample_matcher false none 7
    [["a", "", "b"], ["c"]]
  refine ⟨?_, ?_, ?_⟩
  · obtain ⟨got, w2, k1, k2, _⟩ := h.1 [[["a", "", "b"]]] [["c"]] 4 rfl (by decide) (by decide)
    refine ⟨w2, ?_⟩
    have k3 : got = [sample_info "a", sample_info "b", sample_info "c"] := k2.trans (by decide)
    rw [← k3]
    exact k1
  · obtain ⟨w1, w2, k1, _, _, k4, _, _, _, k8⟩ := h2.2.1 [2, 5] (by decide)
    refine ⟨w2, ?_, (k8 (by decide)).1.trans (by decide)⟩
    have : run sample_get_file_info sample_async
        ([Event.got_info ["a", "", "b"], Event.got_info ["c"], Event.done] ++
          [Event.next_files_async 2 none, Event.next_files_async 5 none]) = some w2 := by
      rw [run_append]
      have k1b : run sample_get_file_info sample_async
          [Event.got_info ["a", "", "b"], Event.got_info ["c"], Event.done] = some w1 := k1
      rw [k1b]
      exact k4
    exact this
  · have hrun : run sample_get_file_info sample_async
        [Event.got_info ["a", "", "b"], Event.next_files_async 3 none, Event.got_info ["c"],
          Event.done]
        = some { sample_async with
            done := true
            next_tag := 3
            idle := [{ id := 1, cancellable := none, error := none, op_res := [sample_info "a", sample_info "b", sample_info "c"] }] } := by
      decide
    have k := (h2.2.2.1
      [Event.got_info ["a", "", "b"], Event.next_files_async 3 none, Event.got_info ["c"],
        Event.done] _ rfl (by decide) hrun).1
    exact ⟨_, hrun, k.trans (by decide)⟩

/-! ## C2: what a successful completion delivers -/

/-- C2. A completion with `ok = TRUE` of the outstanding request for `N > 0`
files (fired by the deadline timer, by Done, or by an Info push that reaches
the count) completes the result of the request once, with the first
`min N |L|` entries of the buffer `L` in buffered order (each with its
metadata added) as `op_res`, and leaves exactly the remaining entries of `L`
buffered in order; the consumer obtains that list from `next_files_finish`
unless the cancellable of the request has been cancelled. -/
theorem trigger_async_done_delivers_first_n (w : World) (r : GSimpleAsyncResult) (N : Int)
    (hN : 0 < N) (hreq : w.async_requested_files = N) (hres : w.async_res = some r) :
    ∃ (w1 : World) (res : GSimpleAsyncResult),
      trigger_async_done w true = some w1 ∧
      async_timeout w = some w1 ∧
      handle_done w = some { w1 with done := true } ∧
      (∀ (Raw : Type) (f : Raw → Option GFileInfo) (w0 : World) (batch : List Raw),
        w = { w0 with infos := w0.infos ++ batch.filterMap f } → N ≤ (w.infos.length : Int) →
        handle_got_info f w0 batch = some w1) ∧
      w1.idle = w.idle ++ [res] ∧
      res.id = r.id ∧ res.error = r.error ∧
      res.op_res = (w.infos.take N.toNat).map (add_metadata w.toGDaemonFileEnumerator) ∧
      res.op_res.length = min N.toNat w.infos.length ∧
      w1.infos = w.infos.drop N.toNat ∧
      w.infos = w.infos.take N.toNat ++ w1.infos ∧
      ((∀ c, r.cancellable = some c → c ∉ w1.cancelled) →
        g_daemon_file_enumerator_next_files_finish w1 res = Except.ok res.op_res) := by
  have hpos : 0 < w.async_requested_files := hreq ▸ hN
  have key := trigger_async_done_ok_eq w r hpos hres
  refine ⟨_, _, key, key, ?_, ?_, rfl, rfl, rfl, ?_, ?_, ?_, ?_, ?_⟩
  · have hpos1 : 0 < ({ w with done := true } : World).async_requested_files := hpos
    have k1 := trigger_async_done_ok_eq { w with done := true } r hpos1 hres
    simp only [handle_done, hpos, if_true]
    rw [k1]
    have hm : add_metadata ({ w with done := true } : World).toGDaemonFileEnumerator
        = add_metadata w.toGDaemonFileEnumerator := add_metadata_congr _ _ rfl rfl rfl
    rw [hm]
  · intro Raw f w0 batch hw hlen
    have e1 : (got_info_loop f batch []).reverse = batch.filterMap f := by
      simp [got_info_loop_eq]
    have hc : 0 < w.async_requested_files ∧ w.async_requested_files ≤ (w.infos.length : Int) :=
      ⟨hpos, hreq ▸ hlen⟩
    subst hw
    simp only [handle_got_info, e1]
    exact (if_pos hc).trans key
  · rw [hreq]
  · simp [hreq]
  · simp [hreq]
  · simp [hreq]
  · intro hc
    unfold g_daemon_file_enumerator_next_files_finish
    cases hcan : r.cancellable with
    | none => simp [hcan]
    | some c =>
      have := hc c hcan
      simp [hcan] 
      simpa using this

/-- With 7 entries buffered a request for 5 gets the first 5 and 2 stay; with 2
entries buffered the deadline of a request for 5 delivers those 2 as success
and none stays. -/
theorem trigger_async_done_delivers_first_n_witness :
    (∃ (w1 : World) (res : GSimpleAsyncResult),
      trigger_async_done (sample_pending ["a", "b", "c", "d", "e", "f", "g"] 5) true = some w1 ∧
      w1.idle = [res] ∧
      res.op_res = ["a", "b", "c", "d", "e"].map sample_info ∧
      w1.infos = ["f", "g"].map sample_info) ∧
    (∃ (w1 : World) (res : GSimpleAsyncResult),
      async_timeout (sample_pending ["a", "b"] 5) = some w1 ∧
      w1.idle = [res] ∧ res.error = none ∧
      g_daemon_file_enumerator_next_files_finish w1 res = Except.ok (["a", "b"].map sample_info) ∧
      w1.infos = []) := by
  constructor
  · obtain ⟨w1, res, h1, _, _, _, h5, _, _, h8, _, h10, _, _⟩ :=
      trigger_async_done_delivers_first_n (sample_pending ["a", "b", "c", "d", "e", "f", "g"] 5)
        { id := 1, cancellable := none, error := none, op_res := [] } 5 (by decide) rfl rfl
    exact ⟨w1, res, h1, h5, h8.trans (by decide), h10.trans (by decide)⟩
  · obtain ⟨w1, res, _, h2, _, _, h5, _, h7, h8, _, h10, _, h12⟩ :=
      trigger_async_done_delivers_first_n (sample_pending ["a", "b"] 5)
        { id := 1, cancellable := none, error := none, op_res := [] } 5 (by decide) rfl rfl
    have h8a : res.op_res = ["a", "b"].map sample_info := h8.trans (by decide)
    refine ⟨w1, res, h2, h5, h7, ?_, h10.trans (by decide)⟩
    rw [h12 (fun c hc => by simp at hc), h8a]

/-! ## C3: cancellation keeps the buffer -/

/-- C3. On an enumerator without sync connection that is not done and has
`k` entries buffered, `0 < k < N`, a request for `N` files with a cancellable
that is not yet cancelled stays outstanding; cancelling it completes the
request with the cancelled error (set on the result, and reported by
`next_files_finish`) and leaves the buffer unchanged; a following request for
`k` files whose cancellable, if any, is not cancelled is completed at once and
its finish returns exactly those `k` entries in the same order (each with its
metadata added, so the very same values when no metadata tree is bound), the
buffer being empty afterwards. -/
theorem cancel_keeps_buffer_for_next_request (w : World) (N : Int) (c : Nat) (c2 : Option Nat)
    (hmode : w.sync_connection = none) (hdone : w.done = false) (hh : w.handlers = [])
    (hk : 0 < w.infos.length) (hN : (w.infos.length : Int) < N)
    (hc : c ∉ w.cancelled) (hc2 : ∀ t, c2 = some t → t ≠ c ∧ t ∉ w.cancelled) :
    ∃ (w1 w2 w3 : World) (r1 r2 : GSimpleAsyncResult),
      g_daemon_file_enumerator_next_files_async w N (some c) = some w1 ∧
      w1.async_requested_files = N ∧ w1.idle = w.idle ∧ w1.infos = w.infos ∧
      g_cancellable_cancel w1 c = some w2 ∧
      w2.idle = w.idle ++ [r1] ∧ r1.id = w.next_tag ∧
      r1.error = some ⟨GIOErrorCode.CANCELLED, "Operation was cancelled"⟩ ∧
      g_daemon_file_enumerator_next_files_finish w2 r1
        = Except.error ⟨GIOErrorCode.CANCELLED, "Operation was cancelled"⟩ ∧
      w2.infos = w.infos ∧ w2.async_requested_files = 0 ∧ w2.async_res = none ∧
      g_daemon_file_enumerator_next_files_async w2 (w.infos.length : Int) c2 = some w3 ∧
      w3.idle = w2.idle ++ [r2] ∧ r2.error = none ∧
      g_daemon_file_enumerator_next_files_finish w3 r2
        = Except.ok (w.infos.map (add_metadata w.toGDaemonFileEnumerator)) ∧
      (w.metadata_tree = none →
        g_daemon_file_enumerator_next_files_finish w3 r2 = Except.ok w.infos) ∧
      w3.infos = [] := by
  have hne : ¬ (0 ≤ N ∧ N ≤ (w.infos.length : Int)) := fun h => absurd h.2 (not_le.mpr hN)
  have e1 : g_daemon_file_enumerator_next_files_async w N (some c) = some
      { w with
        cancelled_tag := w.next_tag + 2
        timeout_tag := w.next_tag + 1
        async_requested_files := N
        async_res := some { id := w.next_tag, cancellable := some c, error := none, op_res := [] }
        sources := w.sources ++ [w.next_tag + 1]
        handlers := [(c, w.next_tag + 2)]
        next_tag := w.next_tag + 3 } := by
    simp [g_daemon_file_enumerator_next_files_async, hmode, hdone, enough_infos, hne, hc, hh]
  have e2 : g_cancellable_cancel
      { w with
        cancelled_tag := w.next_tag + 2
        timeout_tag := w.next_tag + 1
        async_requested_files := N
        async_res := some { id := w.next_tag, cancellable := some c, error := none, op_res := [] }
        sources := w.sources ++ [w.next_tag + 1]
        handlers := [(c, w.next_tag + 2)]
        next_tag := w.next_tag + 3 } c = some
      { w with
        cancelled_tag := 0
        timeout_tag := 0
        async_requested_files := 0
        async_res := none
        handlers := []
        cancelled := c :: w.cancelled
        idle := w.idle ++ [{ id := w.next_tag, cancellable := some c, op_res := [], error := some ⟨GIOErrorCode.CANCELLED, "Operation was cancelled"⟩ }]
        sources := (w.sources ++ [w.next_tag + 1]).erase (w.next_tag + 1)
        next_tag := w.next_tag + 3 } := by
    simp [g_cancellable_cancel, hc, emit_cancelled, async_cancelled, async_cancelled_locked,
      async_cancelled_set_error, trigger_async_done]
  have hkpos : (0 : Int) < (w.infos.length : Int) := by exact_mod_cast hk
  have e3 : g_daemon_file_enumerator_next_files_async
      { w with
        cancelled_tag := 0
        timeout_tag := 0
        async_requested_files := 0
        async_res := none
        handlers := []
        cancelled := c :: w.cancelled
        idle := w.idle ++ [{ id := w.next_tag, cancellable := some c, op_res := [], error := some ⟨GIOErrorCode.CANCELLED, "Operation was cancelled"⟩ }]
        sources := (w.sources ++ [w.next_tag + 1]).erase (w.next_tag + 1)
        next_tag := w.next_tag + 3 } (w.infos.length : Int) c2 = some
      { w with
        infos := []
        cancelled_tag := 0
        timeout_tag := 0
        async_requested_files := 0
        async_res := none
        handlers := []
        cancelled := c :: w.cancelled
        idle := (w.idle ++ [{ id := w.next_tag, cancellable := some c, op_res := [], error := some ⟨GIOErrorCode.CANCELLED, "Operation was cancelled"⟩ }]) ++ [{ id := w.next_tag + 3, cancellable := c2, error := none, op_res := w.infos.map (add_metadata w.toGDaemonFileEnumerator) }]
        sources := (w.sources ++ [w.next_tag + 1]).erase (w.next_tag + 1)
        next_tag := w.next_tag + 4 } := by
    simp [g_daemon_file_enumerator_next_files_async, hmode, hdone, enough_infos, trigger_async_done,
      hkpos.ne', hkpos.le, not_lt.mpr hkpos.le, add_metadata_eq_with]
  refine ⟨_, _, _, _, _, e1, rfl, rfl, rfl, e2, rfl, rfl, rfl, ?_, rfl, rfl, rfl, e3, rfl, rfl, ?_, ?_, rfl⟩
  · simp [g_daemon_file_enumerator_next_files_finish]
  · cases c2 with
    | none => simp [g_daemon_file_enumerator_next_files_finish]
    | some t =>
      have := hc2 t rfl
      simp [g_daemon_file_enumerator_next_files_finish, this.1, this.2]
  · intro ht
    cases c2 with
    | none => simp [g_daemon_file_enumerator_next_files_finish, add_metadata_of_no_tree _ ht]
    | some t =>
      have := hc2 t rfl
      simp [g_daemon_file_enumerator_next_files_finish, this.1, this.2,
        add_metadata_of_no_tree _ ht]

/-- Two entries buffered, a request for 5 cancelled, then a request for 2. -/
theorem cancel_keeps_buffer_for_next_request_witness :
    ∃ (w2 w3 : World) (r2 : GSimpleAsyncResult),
      (g_daemon_file_enumerator_next_files_async (sample_buffered ["a", "b"]) 5 (some 1)).bind
        (fun w1 => g_cancellable_cancel w1 1) = some w2 ∧
      w2.infos = [sample_info "a", sample_info "b"] ∧
      g_daemon_file_enumerator_next_files_async w2 2 none = some w3 ∧
      w3.idle = w2.idle ++ [r2] ∧
      g_daemon_file_enumerator_next_files_finish w3 r2
        = Except.ok [sample_info "a", sample_info "b"] := by
  obtain ⟨w1, w2, w3, r1, r2, h1, _, _, _, h5, _, _, _, _, h10, _, _, h13, h14, _, _, h17, _⟩ :=
    cancel_keeps_buffer_for_next_request (sample_buffered ["a", "b"]) 5 1 none
      rfl rfl rfl (by decide) (by decide) (by decide) (by simp)
  refine ⟨w2, w3, r2, ?_, h10, h13, h14, h17 rfl⟩
  rw [h1]
  exact h5

/-! ## C4: one completion per request -/

/-- Events handled one at a time, each to its end before the next begins (the
handler of a cancellation obtains the infos lock at once).  A request for
`N > 0` files that is outstanding when `next_files_async` returns (issued on an
enumerator without armed source or connected handler), followed by any
sequence of Info pushes, Done, timeout firings and cancellations, always runs
to a state in which the request is either still outstanding and no result has
been completed, or completed exactly once: one result, that of the request,
has been added to the completed ones, carrying either no error or the
cancelled error with an empty list, and no event after the completing one adds
another.  The request is completed exactly when the sequence holds Done, the
firing of the request's timeout source or the cancellation of its cancellable,
or its pushes bring the buffer to `N` entries. -/
theorem one_thread_completes_exactly_once {Raw : Type} (f : Raw → Option GFileInfo)
    (w w1 : World) (N : Int) (c : Option Nat) (es : List (Event Raw))
    (hmode : w.sync_connection = none) (hs : w.sources = []) (hh : w.handlers = [])
    (hN : 0 < N)
    (hissue : g_daemon_file_enumerator_next_files_async w N c = some w1)
    (hout : 0 < w1.async_requested_files)
    (hes : es.all Event.is_trigger = true) :
    ∃ w2 : World, run f w1 es = some w2 ∧
      (CompletedOnce w2 w.idle w.next_tag c ∨
        (Outstanding w2 w.idle w.next_tag N c w1.timeout_tag ∧ w2.idle = w.idle)) ∧
      (CompletedOnce w2 w.idle w.next_tag c ↔
        (es.any (Event.completes c w1.timeout_tag) = true ∨
          N ≤ ((w.infos ++ pushed_infos f (pushed_by es)).length : Int))) ∧
      (∀ res ∈ w2.idle.drop w.idle.length, w2.idle = w.idle ++ [res] ∧ res.id = w.next_tag ∧
        (res.error = none ∨
          res.error = some ⟨GIOErrorCode.CANCELLED, "Operation was cancelled"⟩ ∧ res.op_res = [])) := by
  have ho := outstanding_of_issue w w1 N c hmode hs hh hissue hout
  have hb := buffer_short_of_issue w w1 N c hmode hN hissue hout
  have ht : w1.timeout_tag = w.next_tag + 1 := ho.2.2.1
  rw [ht]
  obtain ⟨w2, h1, h2⟩ :=
    run_of_outstanding f es w1 w.idle w.next_tag N c (w.next_tag + 1) hN hes ho hb.2
  rw [hb.1] at h2
  refine ⟨w2, h1, ?_, ?_, ?_⟩
  · rcases h2 with ⟨h2, _⟩ | ⟨h2, _⟩
    · exact Or.inl h2
    · exact Or.inr ⟨h2, h2.2.2.2.2.2.2⟩
  · constructor
    · intro hc
      rcases h2 with ⟨_, hr⟩ | ⟨h2, _⟩
      · exact hr
      · have h3 := h2.2.1
        rw [hc.2.1] at h3
        cases h3
    · intro hr
      rcases h2 with ⟨h2, _⟩ | ⟨_, h3, h4, h5⟩
      · exact h2
      · rcases hr with hr | hr
        · rw [h3] at hr
          cases hr
        · rw [h4] at h5
          omega
  · intro res hres
    rcases h2 with ⟨h2, _⟩ | ⟨h2, _⟩
    · obtain ⟨_, _, _, _, r, g1, g2, _, g4⟩ := h2
      rw [g1] at hres
      simp at hres
      subst hres
      refine ⟨g1, g2, ?_⟩
      rcases g4 with g4 | ⟨g4, g5, _⟩
      · exact Or.inl g4
      · exact Or.inr ⟨g4, g5⟩
    · rw [h2.2.2.2.2.2.2] at hres
      simp at hres

/-- One entry buffered, a request for 3 files with cancellable 1; then a push of
one record, a push of two records that brings the buffer to the count, the
cancellation, the timeout and Done: the request is completed, once, by the
second push, with the first three entries. -/
theorem one_thread_completes_exactly_once_sample :
    ∃ w2 : World,
      run sample_get_file_info (sample_requested ["a"])
        [Event.got_info ["b"], Event.got_info ["c", "d"], Event.cancel 1, Event.timeout 2,
          Event.done] = some w2 ∧
      CompletedOnce w2 [] 1 (some 1) ∧
      w2.idle = [{ id := 1, cancellable := some 1, error := none,
                   op_res := [sample_info "a", sample_info "b", sample_info "c"] }] ∧
      w2.infos = [sample_info "d"] := by
  obtain ⟨w2, h1, _, h3, _⟩ := one_thread_completes_exactly_once sample_get_file_info
    (sample_buffered ["a"]) (sample_requested ["a"]) 3 (some 1)
    [Event.got_info ["b"], Event.got_info ["c", "d"], Event.cancel 1, Event.timeout 2,
      Event.done]
    rfl rfl rfl (by decide) (by decide) (by decide) (by decide)
  refine ⟨w2, h1, h3.2 (Or.inr (by decide)), ?_⟩
  have h4 : run sample_get_file_info (sample_requested ["a"])
      [Event.got_info ["b"], Event.got_info ["c", "d"], Event.cancel 1, Event.timeout 2,
        Event.done]
      = some { sample_async with
          infos := [sample_info "d"]
          done := true
          cancelled := [1]
          next_tag := 4
          idle := [{ id := 1, cancellable := some 1, error := none,
                     op_res := [sample_info "a", sample_info "b", sample_info "c"] }] } := by
    decide
  rw [h4] at h1
  cases h1
  exact ⟨rfl, rfl⟩

/-- C4, which the code does not meet when the cancellation comes from another
thread.  A request for 3 files with cancellable 1 is outstanding on the sample
enumerator, one entry is buffered.  Another thread calls `g_cancellable_cancel`:
the handler `async_cancelled` sets the error on the result and stands before
`G_LOCK (infos)`; no result has been completed and the request is pending.
Whichever of Done, the firing of the timeout source 2 and a push that brings
the buffer to 3 entries is handled on the main thread now, its
`trigger_async_done` calls `g_cancellable_disconnect` with the infos lock held
and does not return: the request is never completed, neither success nor the
cancelled error is delivered.  (When only a push that does not reach the count
comes in between, the handler obtains the lock and the request is completed
once, with the cancelled error and the buffer untouched.) -/
theorem cancel_on_other_thread_blocks_completion :
    g_daemon_file_enumerator_next_files_async (sample_buffered ["a"]) 3 (some 1)
      = some (sample_requested ["a"]) ∧
    step_threads sample_get_file_info { world := sample_requested ["a"], emitting := none }
      (ThreadEvent.cancel_begins 1) = some sample_cancelling ∧
    sample_cancelling.world.idle = [] ∧
    sample_cancelling.world.async_requested_files = 3 ∧
    step_threads sample_get_file_info sample_cancelling (ThreadEvent.main Event.done) = none ∧
    step_threads sample_get_file_info sample_cancelling (ThreadEvent.main (Event.timeout 2))
      = none ∧
    step_threads sample_get_file_info sample_cancelling
      (ThreadEvent.main (Event.got_info ["b", "c"])) = none ∧
    run_threads sample_get_file_info sample_cancelling
      [ThreadEvent.main (Event.got_info ["b"]), ThreadEvent.handler_locks]
      = some
        { world :=
            { sample_async with
              infos := [sample_info "a", sample_info "b"]
              cancelled := [1]
              next_tag := 4
              idle := [{ id := 1, cancellable := some 1, error := some ⟨GIOErrorCode.CANCELLED, "Operation was cancelled"⟩, op_res := [] }] }
          emitting := none } := by
  refine ⟨by decide, by decide, by decide, by decide, by decide, by decide, by decide,
    by decide⟩

/-! ## C5: when the consumer sees the cancelled error -/

/-- C5, as stated, fails.  Two entries are buffered and a request for two files
with cancellable 1 is completed at once, by the count, with both entries as
its result and an empty buffer; the cancellable is cancelled only afterwards;
`next_files_finish` on that result then reports the cancelled error, although
the request has removed both entries from the buffer. -/
theorem finish_reports_cancelled_after_completion :
    (sample_buffered ["a", "b"]).infos = [sample_info "a", sample_info "b"] ∧
    g_daemon_file_enumerator_next_files_async (sample_buffered ["a", "b"]) 2 (some 1)
      = some (sample_completed []) ∧
    (sample_completed []).cancelled = [] ∧
    (sample_completed []).infos = [] ∧
    (sample_completed []).idle = [sample_result] ∧
    sample_result.error = none ∧
    sample_result.op_res = [sample_info "a", sample_info "b"] ∧
    g_cancellable_cancel (sample_completed []) 1 = some (sample_completed [1]) ∧
    g_daemon_file_enumerator_next_files_finish (sample_completed [1]) sample_result
      = Except.error ⟨GIOErrorCode.CANCELLED, "Operation was cancelled"⟩ ∧
    (sample_completed [1]).infos ≠ (sample_buffered ["a", "b"]).infos := by
  refine ⟨by decide, by decide, by decide, by decide, by decide, by decide, by decide,
    by decide, rfl, by decide⟩

/-- C5, amended. `next_files_finish` reports an error exactly when the
cancellable stored in the result is cancelled at the time of the call, be it
before or after the request was completed, and that error is the cancelled
error; and the completion run by the cancellation handler (`async_cancelled`)
always returns, completes the pending result with the cancelled error set and
removes no entry from the buffer. -/
theorem finish_cancelled_iff_token_cancelled (w : World) (res : GSimpleAsyncResult) :
    ((∃ e, g_daemon_file_enumerator_next_files_finish w res = Except.error e) ↔
      ∃ c, res.cancellable = some c ∧ c ∈ w.cancelled) ∧
    (∀ e, g_daemon_file_enumerator_next_files_finish w res = Except.error e →
      e.code = GIOErrorCode.CANCELLED) ∧
    ((¬ ∃ c, res.cancellable = some c ∧ c ∈ w.cancelled) →
      g_daemon_file_enumerator_next_files_finish w res = Except.ok res.op_res) ∧
    (∃ w1 : World, async_cancelled w = some w1 ∧ w1.infos = w.infos ∧ w1.done = w.done ∧
      w1.async_requested_files = 0 ∧ w1.async_res = none ∧
      w1.idle = w.idle ++ (w.async_res.map (fun r =>
        { r with error := some ⟨GIOErrorCode.CANCELLED, "Operation was cancelled"⟩ })).toList) := by
  refine ⟨?_, ?_, ?_, ?_⟩
  · unfold g_daemon_file_enumerator_next_files_finish
    cases hcan : res.cancellable with
    | none => simp
    | some c =>
      by_cases hc : c ∈ w.cancelled
      · simp [hc]
      · simp [hc]
  · intro e
    unfold g_daemon_file_enumerator_next_files_finish
    cases hcan : res.cancellable with
    | none => simp
    | some c =>
      by_cases hc : c ∈ w.cancelled
      · simp only [hc, if_true]
        intro h
        cases h
        rfl
      · simp [hc]
  · intro h
    unfold g_daemon_file_enumerator_next_files_finish
    cases hcan : res.cancellable with
    | none => simp
    | some c =>
      have hc : c ∉ w.cancelled := fun hc => h ⟨c, hcan, hc⟩
      simp [hc]
  · exact ⟨_, rfl, rfl, rfl, rfl, rfl, rfl⟩

/-! ## C6: a second request while one is outstanding -/

/-- C6. An enumerator that the consumer holds through the base class starts with
no request (no source armed, no handler connected, every completed result
handed over) and goes through any sequence of `next_files_async` calls, Info
pushes, Done, timeout firings, cancellations and dispatches of completed
results that returns.  While a request is outstanding then, be it pending in
the enumerator or completed and not yet handed over, the base class has it
marked as outstanding, and a further `next_files_async` call for a positive
count returns at once with the pending error as its only effect: the class
method is not reached and the enumerator, with the requested count, the
timeout source, the cancellation handler and the result object of the
outstanding request, is left as it is. -/
theorem second_request_fails_pending {Raw : Type} (f : Raw → Option GFileInfo)
    (e0 e : GFileEnumerator) (cs : List (Call Raw)) (num_files : Int) (cancellable : Option Nat)
    (hd : e0.delivered = e0.daemon.idle.length) (hq : NoRequest e0.daemon)
    (hrun : run_calls f e0 cs = some e)
    (hout : e.daemon.async_res ≠ none ∨ 0 < e.daemon.async_requested_files ∨ e.pending = true)
    (hn : 0 < num_files) :
    e.pending = true ∧
    ∃ e1 : GFileEnumerator,
      g_file_enumerator_next_files_async e num_files cancellable = some e1 ∧
      e1.reported = e.reported ++ [Except.error pending_error] ∧
      e1.daemon = e.daemon ∧ e1.pending = true ∧ e1.delivered = e.delivered ∧
      e1.daemon.async_requested_files = e.daemon.async_requested_files ∧
      e1.daemon.timeout_tag = e.daemon.timeout_tag ∧ e1.daemon.sources = e.daemon.sources ∧
      e1.daemon.cancelled_tag = e.daemon.cancelled_tag ∧
      e1.daemon.handlers = e.daemon.handlers ∧
      e1.daemon.async_res = e.daemon.async_res ∧ e1.daemon.idle = e.daemon.idle := by
  have hg0 : Guarded e0 := ⟨by omega, by omega, fun _ => hd, Or.inl hq⟩
  obtain ⟨_, _, _, g4⟩ := run_calls_guarded f cs e0 e hg0 hrun
  have hpend : e.pending = true := by
    rcases g4 with g4 | ⟨g4, _⟩
    · rcases hout with h | h | h
      · exact absurd g4.2.1 h
      · rw [g4.1] at h
        exact absurd h (lt_irrefl 0)
      · exact h
    · exact g4
  refine ⟨hpend, { e with reported := e.reported ++ [Except.error pending_error] }, ?_,
    rfl, rfl, hpend, rfl, rfl, rfl, rfl, rfl, rfl, rfl, rfl⟩
  simp only [g_file_enumerator_next_files_async, hpend, if_true]
  rw [if_neg (by omega), if_neg (by omega)]

/-- A request for 5 files is outstanding on the sample enumerator and one record
has been pushed; a second request, for 3 files, gets the pending error and
leaves the first one as it is. -/
theorem second_request_fails_pending_witness :
    run_calls sample_get_file_info sample_enumerator
      [Call.event (Event.next_files_async 5 none), Call.event (Event.got_info ["a"])]
      = some sample_outstanding ∧
    ∃ e1 : GFileEnumerator,
      g_file_enumerator_next_files_async sample_outstanding 3 none = some e1 ∧
      e1.reported = [Except.error pending_error] ∧
      e1.daemon = sample_pending ["a"] 5 := by
  have h : run_calls sample_get_file_info sample_enumerator
      [Call.event (Event.next_files_async 5 none), Call.event (Event.got_info ["a"])]
      = some sample_outstanding := by
    rfl
  obtain ⟨_, e1, h1, h2, h3, _⟩ := second_request_fails_pending sample_get_file_info
    sample_enumerator sample_outstanding
    [Call.event (Event.next_files_async 5 none), Call.event (Event.got_info ["a"])] 3 none
    rfl ⟨rfl, rfl, rfl, rfl⟩ h (Or.inl (by decide)) (by decide)
  exact ⟨h, e1, h1, h2, h3⟩

/-! ## C7: the pull of the other mode -/

/-- C7. `next_file` on an enumerator without a sync connection returns at once
the error `G_IO_ERROR_FAILED`, dispatching none of the arriving calls and
leaving the whole state as it was; `next_files_async` on an enumerator with a
sync connection only schedules an error result in idle: the enumerator
(buffer, done flag, request fields), the timeout sources and the handlers are
unchanged. -/
theorem wrong_mode_pull_fails {Raw : Type} (f : Raw → Option GFileInfo) (wa ws : World)
    (ha : wa.sync_connection = none) (hs : ws.sync_connection ≠ none) :
    (∀ arrivals : List (DBusMessage Raw), ∃ e : GError,
      g_daemon_file_enumerator_next_file f wa arrivals = some (Except.error e, wa) ∧
      e.code = GIOErrorCode.FAILED) ∧
    (∀ (num_files : Int) (cancellable : Option Nat), ∃ (w1 : World) (e : GError),
      g_daemon_file_enumerator_next_files_async ws num_files cancellable = some w1 ∧
      w1.toGDaemonFileEnumerator = ws.toGDaemonFileEnumerator ∧
      w1.infos = ws.infos ∧ w1.done = ws.done ∧
      w1.async_requested_files = ws.async_requested_files ∧ w1.async_res = ws.async_res ∧
      w1.cancelled_tag = ws.cancelled_tag ∧ w1.timeout_tag = ws.timeout_tag ∧
      w1.sources = ws.sources ∧ w1.handlers = ws.handlers ∧
      w1.idle = ws.idle ++ [reported_error ws.next_tag] ∧
      (reported_error ws.next_tag).error = some e ∧ e.code = GIOErrorCode.FAILED ∧
      (reported_error ws.next_tag).op_res = []) := by
  constructor
  · intro arrivals
    exact ⟨⟨GIOErrorCode.FAILED,
      "Can't do synchronous next_files() on a file enumerator created asynchronously"⟩,
      by simp [g_daemon_file_enumerator_next_file, ha], rfl⟩
  · intro num_files cancellable
    refine ⟨{ ws with idle := ws.idle ++ [reported_error ws.next_tag], next_tag := ws.next_tag + 1 },
      ⟨GIOErrorCode.FAILED,
        "Can't do asynchronous next_files() on a file enumerator created synchronously"⟩,
      by simp [g_daemon_file_enumerator_next_files_async, hs],
      rfl, rfl, rfl, rfl, rfl, rfl, rfl, rfl, rfl, rfl, rfl, rfl, rfl⟩

/-- The two wrong-mode calls on the sample enumerators. -/
theorem wrong_mode_pull_fails_witness :
    sample_async.sync_connection = none ∧ sample_sync.sync_connection ≠ none ∧
    (∃ e : GError, g_daemon_file_enumerator_next_file sample_get_file_info sample_async
        [DBusMessage.got_info ["a"], DBusMessage.done] = some (Except.error e, sample_async)) ∧
    (∃ w1 : World, g_daemon_file_enumerator_next_files_async sample_sync 3 none = some w1 ∧
        w1.toGDaemonFileEnumerator = sample_sync.toGDaemonFileEnumerator) := by
  have h := wrong_mode_pull_fails sample_get_file_info sample_async sample_sync rfl (by decide)
  refine ⟨rfl, by decide, ?_, ?_⟩
  · obtain ⟨e, he, _⟩ := h.1 [DBusMessage.got_info ["a"], DBusMessage.done]
    exact ⟨e, he⟩
  · obtain ⟨w1, _, h1, h2, _⟩ := h.2 3 none
    exact ⟨w1, h1, h2⟩

/-! ## C8: an Info push after Done -/

/-- C8, as stated, fails.  Done has been received on the sample enumerator,
its buffer is empty and no request is pending; a further Info push of the
record "a" is not a no-op: the entry is buffered. -/
theorem info_after_done_is_buffered :
    handle_done sample_async = some sample_done ∧
    sample_done.done = true ∧ sample_done.infos = [] ∧ sample_done.async_requested_files = 0 ∧
    handle_got_info sample_get_file_info sample_done ["a"]
      = some { sample_done with infos := [sample_info "a"] } ∧
    handle_got_info sample_get_file_info sample_done ["a"] ≠ some sample_done := by
  refine ⟨by decide, by decide, by decide, by decide, by decide, by decide⟩

/-- C8, amended. On an enumerator on which Done has been received and no
request is pending, a further Info push leaves the done flag and every
request field as they were and appends the decodable records of the batch to
the buffer, in order; it is a no-op exactly when no record of the batch
decodes. -/
theorem info_after_done_appends {Raw : Type} (f : Raw → Option GFileInfo) (w : World)
    (arg_infos : List Raw) (hdone : w.done = true) (hreq : w.async_requested_files ≤ 0) :
    ∃ w1 : World, handle_got_info f w arg_infos = some w1 ∧
      w1 = { w with infos := w.infos ++ arg_infos.filterMap f } ∧
      w1.done = true ∧
      w1.async_requested_files = w.async_requested_files ∧ w1.async_res = w.async_res ∧
      w1.cancelled_tag = w.cancelled_tag ∧ w1.timeout_tag = w.timeout_tag ∧
      w1.idle = w.idle ∧
      (w1 = w ↔ arg_infos.filterMap f = []) := by
  have e1 : (got_info_loop f arg_infos []).reverse = arg_infos.filterMap f := by
    simp [got_info_loop_eq]
  have h2 : ¬ 0 < w.async_requested_files := not_lt.mpr hreq
  refine ⟨_, by simp [handle_got_info, e1, h2], rfl, hdone, rfl, rfl, rfl, rfl, rfl, ?_⟩
  constructor
  · intro h
    have h3 := congrArg (fun x : World => x.infos) h
    simpa using h3
  · intro h
    rw [h]
    simp

/-- A push after Done on the sample enumerator. -/
theorem info_after_done_appends_witness :
    ∃ w1 : World,
      handle_got_info sample_get_file_info sample_done ["a", ""] = some w1 ∧
      w1.infos = [sample_info "a"] ∧ w1.done = true := by
  obtain ⟨w1, h1, h2, h3, _⟩ := info_after_done_appends sample_get_file_info
    sample_done ["a", ""] rfl (by decide)
  refine ⟨w1, h1, ?_, h3⟩
  rw [h2]
  decide

/-! ## C9: an Info push appends the decodable records in order -/

/-- C9. When no request is pending, `handle_got_info` leaves the buffer as the
old buffer followed by the records of the batch that decode, in the order
received; the list built by prepending and reversed once is that filtered
batch, so a record that does not decode is skipped and nothing else is
dropped or reordered.  No other field changes. -/
theorem handle_got_info_appends_decoded {Raw : Type} (f : Raw → Option GFileInfo)
    (w : World) (arg_infos : List Raw) (h : w.async_requested_files ≤ 0) :
    (got_info_loop f arg_infos []).reverse = arg_infos.filterMap f ∧
    handle_got_info f w arg_infos =
      some { w with infos := w.infos ++ arg_infos.filterMap f } := by
  have e1 : (got_info_loop f arg_infos []).reverse = arg_infos.filterMap f := by
    simp [got_info_loop_eq]
  refine ⟨e1, ?_⟩
  have h2 : ¬ 0 < w.async_requested_files := not_lt.mpr h
  simp [handle_got_info, e1, h2]

/-- A batch whose middle record does not decode, pushed onto a buffer of one. -/
theorem handle_got_info_appends_decoded_witness :
    (handle_got_info sample_get_file_info
        { sample_async with infos := [sample_info "x"] } ["a", "", "b"]).map (fun w => w.infos)
      = some [sample_info "x", sample_info "a", sample_info "b"] := by
  have h := (handle_got_info_appends_decoded sample_get_file_info
    { sample_async with infos := [sample_info "x"] } ["a", "", "b"] (by decide)).2
  rw [h]
  decide

/-! ## C10: a pending request cannot be satisfied -/

/-- C10. At every state reached from an enumerator without pending request by
`next_files_async` calls with positive counts, Info pushes, Done, timeout
firings and cancellations, a pending request (`async_requested_files = N > 0`)
finds `done` false and fewer than `N` entries buffered: a request that can be
satisfied is never left pending. -/
theorem pending_request_cannot_be_satisfied {Raw : Type} (f : Raw → Option GFileInfo)
    (w0 w : World) (es : List (Event Raw))
    (h0 : w0.async_requested_files ≤ 0)
    (hpos : es.all Event.positive_count = true)
    (hrun : run f w0 es = some w)
    (hpend : 0 < w.async_requested_files) :
    w.done = false ∧ (w.infos.length : Int) < w.async_requested_files ∧
    ¬ (w.done = true ∨ w.async_requested_files ≤ (w.infos.length : Int)) := by
  have hinit : pending_unsatisfiable w0 := fun h => absurd h (not_lt.mpr h0)
  have h := run_pending_unsatisfiable f es w0 w hpos hinit hrun hpend
  refine ⟨h.1, h.2, ?_⟩
  rintro (hd | hl)
  · rw [h.1] at hd
    cases hd
  · exact absurd hl (not_le.mpr h.2)

/-- A request for 3 files after one entry was pushed stays pending, not done,
with one entry buffered. -/
theorem pending_request_cannot_be_satisfied_witness :
    ∃ w : World,
      run sample_get_file_info sample_async
        [Event.got_info ["a"], Event.next_files_async 3 (some 1), Event.cancel 2] = some w ∧
      w.async_requested_files = 3 ∧ w.done = false ∧ w.infos.length = 1 := by
  have hrun : run sample_get_file_info sample_async
      [Event.got_info ["a"], Event.next_files_async 3 (some 1), Event.cancel 2]
      = some { sample_buffered ["a"] with
          async_requested_files := 3
          async_res := some { id := 1, cancellable := some 1, error := none, op_res := [] }
          timeout_tag := 2
          cancelled_tag := 3
          sources := [2]
          handlers := [(1, 3)]
          cancelled := [2]
          next_tag := 4 } := by decide
  have h := pending_request_cannot_be_satisfied sample_get_file_info sample_async _ _
    (by decide) (by decide) hrun (by decide)
  exact ⟨_, hrun, rfl, h.1, rfl⟩

/-! ## C11: an empty buffer after the wait -/

/-- C11. On an enumerator with a sync connection whose buffer is empty after the
wait of `next_file`, the call returns NULL without error and leaves the state
reached by the wait (buffer, done flag and all) as it is:

* when Done was received before, the call does not wait and changes nothing;
* when the call waits and the buffer is still empty when the loop is quit, be
  it because Done arrived or because `sync_timeout` fired with `done` still
  false, the state is the one the dispatched calls left;
* in particular a wait in which nothing arrives returns NULL with `done`
  false.

The value returned is the same in all these cases, so NULL does not tell the
caller that Done was received. -/
theorem next_file_empty_buffer_returns_null {Raw : Type} (f : Raw → Option GFileInfo)
    (w : World) (hs : w.sync_connection ≠ none) (hl : w.infos = []) :
    (w.done = true → ∀ arrivals : List (DBusMessage Raw),
      g_daemon_file_enumerator_next_file f w arrivals = some (Except.ok none, w)) ∧
    (w.done = false → ∀ (arrivals : List (DBusMessage Raw)) (w1 : World),
      main_loop_run f w arrivals = some w1 → w1.infos = [] →
      g_daemon_file_enumerator_next_file f w arrivals = some (Except.ok none, w1)) ∧
    (w.done = false →
      g_daemon_file_enumerator_next_file f w ([] : List (DBusMessage Raw))
        = some (Except.ok none, w)) ∧
    (w.done = false → w.async_requested_files = 0 →
      g_daemon_file_enumerator_next_file f w [DBusMessage.done]
        = some (Except.ok none, { w with done := true })) := by
  have hwait : w.done = false → ∀ (arrivals : List (DBusMessage Raw)) (w1 : World),
      main_loop_run f w arrivals = some w1 → w1.infos = [] →
      g_daemon_file_enumerator_next_file f w arrivals = some (Except.ok none, w1) := by
    intro hd arrivals w1 hrun h1
    rw [next_file_wait f w w1 arrivals hs hl hd hrun]
    simp only [h1]
  refine ⟨?_, hwait, ?_, ?_⟩
  · intro hd arrivals
    have hnw : ¬ (w.infos = [] ∧ w.done = false) := by simp [hd]
    simp only [g_daemon_file_enumerator_next_file, hs, if_false, hnw]
    simp [hl]
  · intro hd
    exact hwait hd [] w rfl hl
  · intro hd hreq
    refine hwait hd [DBusMessage.done] { w with done := true } ?_ hl
    simp [main_loop_run, dispatch, handle_done, hreq]

/-- The new sync enumerator: a wait in which nothing arrives and a wait in which
Done arrives both return NULL without error, the first with `done` false, the
second with `done` true. -/
theorem next_file_empty_buffer_returns_null_witness :
    sample_sync.sync_connection ≠ none ∧ sample_sync.infos = [] ∧ sample_sync.done = false ∧
    g_daemon_file_enumerator_next_file sample_get_file_info sample_sync []
      = some (Except.ok none, sample_sync) ∧
    g_daemon_file_enumerator_next_file sample_get_file_info sample_sync [DBusMessage.done]
      = some (Except.ok none, { sample_sync with done := true }) ∧
    g_daemon_file_enumerator_next_file sample_get_file_info sample_sync
        [DBusMessage.got_info ["", ""]]
      = some (Except.ok none, sample_sync) := by
  have h := next_file_empty_buffer_returns_null sample_get_file_info sample_sync
    (by decide) rfl
  exact ⟨by decide, rfl, rfl, h.2.2.1 rfl, h.2.2.2 rfl rfl,
    h.2.1 rfl [DBusMessage.got_info ["", ""]] sample_sync (by decide) rfl⟩

end Gvfs
